import Mathlib

/-! TaulabMesh: follower / leader telemetry over ESP-NOW.

A shallow embedding of `FOLLOWER/src/main.cpp` and `LEADER/src/main.cpp`.

* Bytes (`uint8_t`, `char`) are natural numbers below 256; a buffer is a `List Nat`.
* `uint32_t` and `unsigned long` (32 bits on the ESP32) are natural numbers with
  explicit reduction modulo `2 ^ 32` wherever the source can overflow.
* `millis()`, `digitalRead` and the result of `esp_now_send` are inputs of the
  functions that read them.
* The global `followers` (a `std::map<std::string, follower_t>`) is a list of
  key/value pairs kept in strictly ascending key order.
-/

namespace TaulabMesh

/-! ## Constants of both programs -/

/-- Leader: `#define MAX_FOLLOWERS 20` (never used by the code). -/
def MAX_FOLLOWERS : Nat := 20

/-- Leader: `#define SUMMARY_INTERVAL 5000`. -/
def SUMMARY_INTERVAL : Nat := 5000

/-- Leader: `#define FOLLOWER_TIMEOUT 10000`. -/
def FOLLOWER_TIMEOUT : Nat := 10000

/-- Both programs: `#define DATA_PACKET 2`. -/
def DATA_PACKET : Nat := 2

/-- Follower: `#define DATA_INTERVAL 1000`. -/
def DATA_INTERVAL : Nat := 1000

/-- Follower: `#define FOLLOWER_ID "FOLLOWER_02"`, as its bytes. -/
def FOLLOWER_ID : List Nat := [70, 79, 76, 76, 79, 87, 69, 82, 95, 48, 50]

/-- Follower: `uint8_t leader_mac[6] = {0xFF, ...}`, the broadcast address. -/
def leader_mac : List Nat := [255, 255, 255, 255, 255, 255]

/-- Number of values of a `uint32_t` / `unsigned long`. -/
def U32 : Nat := 4294967296

/-- Subtraction of two `unsigned long` values, as the target computes it. -/
def sub32 (a b : Nat) : Nat := (a % U32 + U32 - b % U32) % U32

/-! ## Layout of `data_packet_t`

The struct is declared without a packing attribute, so the compiler lays the
fields out in order, each at the next multiple of its alignment, and rounds the
size up to the largest alignment. -/

/-- Round `n` up to a multiple of `a`. -/
def alignUp (n a : Nat) : Nat := (n + a - 1) / a * a

/-- Offsets of the fields of a struct; a field is `(size, alignment)`. -/
def field_offsets : Nat → List (Nat × Nat) → List Nat
  | _, [] => []
  | pos, (sz, al) :: rest => alignUp pos al :: field_offsets (alignUp pos al + sz) rest

/-- First byte after the last field. -/
def fields_end : Nat → List (Nat × Nat) → Nat
  | pos, [] => pos
  | pos, (sz, al) :: rest => fields_end (alignUp pos al + sz) rest

/-- Value of `sizeof` for a struct with the given fields. -/
def struct_sizeof (fields : List (Nat × Nat)) : Nat :=
  alignUp (fields_end 0 fields) ((fields.map Prod.snd).foldl max 1)

/-- Fields of `data_packet_t`: `uint8_t type; char follower_id[16];
uint8_t mac_addr[6]; uint32_t event_count;` with the alignments of the ESP32
ABI (1 for byte arrays, 4 for `uint32_t`). -/
def data_packet_t_fields : List (Nat × Nat) := [(1, 1), (16, 1), (6, 1), (4, 4)]

/-- Value of `sizeof(data_packet_t)`. -/
def sizeof_data_packet_t : Nat := struct_sizeof data_packet_t_fields

/-- Offset of `follower_id` in `data_packet_t`. -/
def offsetof_follower_id : Nat := (field_offsets 0 data_packet_t_fields).getD 1 0

/-- Offset of `mac_addr` in `data_packet_t`. -/
def offsetof_mac_addr : Nat := (field_offsets 0 data_packet_t_fields).getD 2 0

/-- Offset of `event_count` in `data_packet_t`. -/
def offsetof_event_count : Nat := (field_offsets 0 data_packet_t_fields).getD 3 0

/-! ## Memory helpers -/

/-- The C string starting at the head of `mem`: the bytes before the first NUL. -/
def c_str (mem : List Nat) : List Nat := mem.takeWhile (fun b => b != 0)

/-- Store `bytes` into `buf` from offset `off` on. -/
def poke (buf : List Nat) (off : Nat) (bytes : List Nat) : List Nat :=
  buf.take off ++ bytes ++ buf.drop (off + bytes.length)

/-- What `strlcpy(dst, src, size)` stores at `dst`: at most `size - 1` bytes of
the string `src`, then a NUL. Nothing is stored behind the NUL. -/
def strlcpy (src : List Nat) (size : Nat) : List Nat :=
  (c_str src).take (size - 1) ++ [0]

/-- The `n` bytes that `memcpy(dst, src, n)` stores, `src` being an array of at
least `n` bytes. -/
def memcpy (src : List Nat) (n : Nat) : List Nat :=
  (src ++ List.replicate n 0).take n

/-- Bytes of a `uint32_t` in memory (the ESP32 is little-endian). -/
def u32_bytes (v : Nat) : List Nat :=
  [v % 256, v / 256 % 256, v / 65536 % 256, v / 16777216 % 256]

/-- The `uint32_t` stored at offset `off` of `buf`. -/
def u32_at (buf : List Nat) (off : Nat) : Nat :=
  buf.getD off 0 + 256 * buf.getD (off + 1) 0 + 65536 * buf.getD (off + 2) 0
    + 16777216 * buf.getD (off + 3) 0

/-! ## Follower -/

/-- The follower's mutable globals: `event_counter`, `last_pin_state`,
`last_data_sent`, `mac_addr`. -/
structure Follower where
  event_counter : Nat
  last_pin_state : Bool
  last_data_sent : Nat
  mac_addr : List Nat
deriving DecidableEq, Repr

/-- The globals as initialised by their declarations. -/
def Follower.init (mac : List Nat) : Follower :=
  { event_counter := 0, last_pin_state := false, last_data_sent := 0, mac_addr := mac }

/-- Source `check_pin_state`; `current_state` is the value of `digitalRead`. -/
def check_pin_state (s : Follower) (current_state : Bool) : Follower :=
  if current_state != s.last_pin_state then
    { s with event_counter := (s.event_counter + 1) % U32, last_pin_state := current_state }
  else s

/-- The bytes of the local `dataPacket` when `send_data` hands it to
`esp_now_send`. `junk` is what the storage of the uninitialised local held
before; `fid` is the `FOLLOWER_ID` the firmware was built with. -/
def build_packet (fid : List Nat) (s : Follower) (junk : List Nat) : List Nat :=
  let p0 := (junk ++ List.replicate sizeof_data_packet_t 0).take sizeof_data_packet_t
  let p1 := poke p0 0 [DATA_PACKET]
  let p2 := poke p1 offsetof_follower_id (strlcpy fid 16)
  let p3 := poke p2 offsetof_mac_addr (memcpy s.mac_addr 6)
  poke p3 offsetof_event_count (u32_bytes s.event_counter)

/-- Effects of one call of `send_data`. -/
structure SendEffect where
  state : Follower
  sent : List (List Nat × List Nat)
  errors : List String
deriving DecidableEq, Repr

/-- Source `send_data`. `ok` tells whether `esp_now_send` returned `ESP_OK`,
`now` is the value of `millis()` read at the end. Every call of
`esp_now_send` is recorded in `sent` as (destination, bytes). -/
def send_data (fid : List Nat) (s : Follower) (junk : List Nat) (ok : Bool) (now : Nat) :
    SendEffect :=
  { state := { s with last_data_sent := now },
    sent := [(leader_mac, build_packet fid s junk)],
    errors := if ok then [] else ["Error sending data packet"] }

/-- The send step of the follower's `loop`: `now` is the value of `millis()`
in the test, `now2` the value read inside `send_data`. -/
def loop_send (fid : List Nat) (s : Follower) (junk : List Nat) (ok : Bool) (now now2 : Nat) :
    SendEffect :=
  if sub32 now s.last_data_sent ≥ DATA_INTERVAL then send_data fid s junk ok now2
  else { state := s, sent := [], errors := [] }

/-- A run of `check_pin_state` over successive readings of the pin. -/
def observe (s : Follower) (levels : List Bool) : Follower :=
  levels.foldl check_pin_state s

/-- Number of readings that differ from the level stored just before them. -/
def level_changes : Bool → List Bool → Nat
  | _, [] => 0
  | last, l :: rest => (if l != last then 1 else 0) + level_changes l rest

/-! ## Leader -/

/-- Source `follower_t`. `follower_id` holds the text of the `char[16]` array
(the bytes before its NUL); the bytes behind the NUL are never read. -/
structure follower_t where
  mac_addr : List Nat
  follower_id : List Nat
  event_count : Nat
  last_seen : Nat
deriving DecidableEq, Repr

/-- The order of `std::string`: `operator<` compares byte by byte, a proper
beginning of a string comes before the string. -/
def str_lt : List Nat → List Nat → Bool
  | [], [] => false
  | [], _ :: _ => true
  | _ :: _, [] => false
  | a :: as, b :: bs => if a < b then true else if b < a then false else str_lt as bs

/-- The nodes of a `std::map<std::string, follower_t>` in iteration order. -/
abbrev Nodes := List (List Nat × follower_t)

/-- Keys ascend strictly along the nodes of a map. -/
def Ascending (m : Nodes) : Prop := m.Pairwise (fun a b => str_lt a.1 b.1 = true)

/-- Lookup of a key: `std::map::find`. -/
def map_find (k : List Nat) : Nodes → Option follower_t
  | [] => none
  | (k', v) :: rest => if k' = k then some v else map_find k rest

/-- Assignment `m[k] = v`: the node with key `k` gets the value `v`; when
there is none, a node is inserted at the place of `k` in the order. -/
def map_assign (k : List Nat) (v : follower_t) : Nodes → Nodes
  | [] => [(k, v)]
  | (k', v') :: rest =>
    if str_lt k k' then (k, v) :: (k', v') :: rest
    else if str_lt k' k then (k', v') :: map_assign k v rest
    else (k', v) :: rest

/-- Removal of a key: `std::map::erase(key)`. -/
def map_erase (k : List Nat) (m : Nodes) : Nodes :=
  m.filter (fun e => decide (e.1 ≠ k))

/-- The global `followers`: the nodes of a `std::map`, whose keys ascend. -/
structure Registry where
  nodes : Nodes
  ascending : Ascending nodes

/-- The map as declared: empty. -/
def Registry.empty : Registry := ⟨[], List.Pairwise.nil⟩

/-- The string that `std::string follower_id_str(packet->follower_id)` reads:
the bytes from the offset of `follower_id` up to the first NUL. The constructor
does not stop at the end of the 16-byte field. When the buffer holds no NUL
from that offset on, the read leaves the buffer and the result is `none`
(undefined behaviour). -/
def follower_id_str (data : List Nat) : Option (List Nat) :=
  if 0 ∈ data.drop offsetof_follower_id then some (c_str (data.drop offsetof_follower_id))
  else none

/-- The six bytes of `packet->mac_addr`. -/
def packet_mac_addr (data : List Nat) : List Nat := (data.drop offsetof_mac_addr).take 6

/-- The value of `packet->event_count`. -/
def packet_event_count (data : List Nat) : Nat := u32_at data offsetof_event_count

/-- Source `OnDataReceived`, on the global `followers`. `_mac_addr` is the
sender address the transport reports, `data` the received buffer (`data_len` is
its length) and `now` the value of `millis()`. The text stored in
`follower.follower_id` is what `strlcpy` copies: at most 15 bytes. -/
def OnDataReceived (followers : Nodes) (_mac_addr : List Nat) (data : List Nat) (now : Nat) :
    Option Nodes :=
  if data.length ≤ 0 then some followers
  else
    let packet_type := data.getD 0 0
    if packet_type = DATA_PACKET ∧ data.length = sizeof_data_packet_t then
      match follower_id_str data with
      | none => none
      | some follower_id_str =>
        let follower : follower_t :=
          { mac_addr := packet_mac_addr data,
            follower_id := follower_id_str.take 15,
            event_count := packet_event_count data,
            last_seen := now }
        some (map_assign follower_id_str follower followers)
    else some followers

/-- The comparison in `check_inactive_followers`:
`current_time - follower.last_seen > FOLLOWER_TIMEOUT` on `unsigned long`. -/
def inactive (current_time : Nat) (follower : follower_t) : Bool :=
  decide (sub32 current_time follower.last_seen > FOLLOWER_TIMEOUT)

/-- The vector `to_remove` that the first loop of `check_inactive_followers`
fills. -/
def to_remove (followers : Nodes) (current_time : Nat) : List (List Nat) :=
  (followers.filter (fun pair => inactive current_time pair.2)).map Prod.fst

/-- Source `check_inactive_followers`; `current_time` is the value of
`millis()`. -/
def check_inactive_followers (followers : Nodes) (current_time : Nat) : Nodes :=
  (to_remove followers current_time).foldl (fun m id => map_erase id m) followers

/-- One call into the leader that touches `followers`. -/
inductive LeaderCall where
  | receive (mac_addr : List Nat) (data : List Nat) (now : Nat)
  | check (now : Nat)

/-- Effect of a call on `followers`. -/
def LeaderCall.run (followers : Nodes) : LeaderCall → Option Nodes
  | .receive mac_addr data now => OnDataReceived followers mac_addr data now
  | .check now => some (check_inactive_followers followers now)

/-- Effect of a sequence of calls, starting from `followers`. -/
def run_calls (followers : Nodes) : List LeaderCall → Option Nodes
  | [] => some followers
  | c :: cs => (c.run followers).bind (fun m => run_calls m cs)

/-! ## Packets and states used in the statements -/

/-- A buffer that passes both tests of `OnDataReceived`: it has the length of
the record and its first byte is the `DATA_PACKET` tag. -/
def valid_data_packet (data : List Nat) : Prop :=
  data.length = sizeof_data_packet_t ∧ data.head? = some DATA_PACKET

instance (data : List Nat) : Decidable (valid_data_packet data) :=
  inferInstanceAs (Decidable (_ ∧ _))

/-- The identity a packet carries according to the record layout: the text of
its 16-byte `follower_id` field, ended by the first NUL of the field if it has
one. -/
def packet_identity (data : List Nat) : List Nat :=
  c_str ((data.drop offsetof_follower_id).take 16)

/-- The packet a follower built with identity `fid` sends when its address is
`mac` and its counter is `count` (the storage of the packet held zeros). -/
def report (fid mac : List Nat) (count : Nat) : List Nat :=
  build_packet fid
    { event_counter := count, last_pin_state := false, last_data_sent := 0, mac_addr := mac } []

/-- The text "F1". -/
def F1 : List Nat := [70, 49]

/-- The text "F2". -/
def F2 : List Nat := [70, 50]

/-- Link address of the follower "F1" in the scenarios. -/
def F1_mac : List Nat := [36, 10, 196, 0, 0, 1]

/-- Link address of the follower "F2" in the scenarios. -/
def F2_mac : List Nat := [36, 10, 196, 0, 0, 2]

/-- The entry of "F1" in the scenarios. -/
def F1_entry (count last_seen : Nat) : follower_t :=
  { mac_addr := F1_mac, follower_id := F1, event_count := count, last_seen := last_seen }

/-- The entry of "F2" in the scenarios. -/
def F2_entry (count last_seen : Nat) : follower_t :=
  { mac_addr := F2_mac, follower_id := F2, event_count := count, last_seen := last_seen }

/-- A registry with one entry. -/
def Registry.single (id : List Nat) (f : follower_t) : Registry :=
  ⟨[(id, f)], List.pairwise_singleton _ _⟩

/-- A record with the `DATA_PACKET` tag whose `follower_id` field holds 16
letters "A" and no NUL, link address 00:0A:C4:00:00:01, event count 5. -/
def long_id_packet : List Nat :=
  [2] ++ List.replicate 16 65 ++ [0, 10, 196, 0, 0, 1] ++ [0] ++ [5, 0, 0, 0]

/-- A pin that changes at every reading: `n` readings, the first one differing
from `last`. -/
def toggling : Nat → Bool → List Bool
  | 0, _ => []
  | n + 1, last => (!last) :: toggling n (!last)

/-- One call of the follower's `loop` body that touches its globals. -/
inductive FollowerCall where
  | check_pin (current_state : Bool)
  | send (junk : List Nat) (ok : Bool) (now : Nat)

/-- The globals after a call. -/
def FollowerCall.run (fid : List Nat) (s : Follower) : FollowerCall → Follower
  | .check_pin current_state => check_pin_state s current_state
  | .send junk ok now => (send_data fid s junk ok now).state

/-- The globals after a sequence of calls. -/
def run_follower (fid : List Nat) (s : Follower) (calls : List FollowerCall) : Follower :=
  calls.foldl (FollowerCall.run fid) s

/-- Number of calls of `check_pin_state` in a sequence. -/
def pin_reads (calls : List FollowerCall) : Nat :=
  (calls.filter (fun c => match c with
    | .check_pin _ => true
    | .send _ _ _ => false)).length

/-! ## The summary of the leader -/

/-- One row that `print_followers_summary` prints for an entry: the text of
`follower.follower_id` (format `%-15s`), the six bytes of `follower.mac_addr`
(printed in hexadecimal) and `follower.event_count`. -/
structure SummaryRow where
  device_id : List Nat
  mac_addr : List Nat
  count : Nat
deriving DecidableEq, Repr

/-- What one call of `print_followers_summary` prints: the time in the header,
the number after "Connected followers:", the rows, and whether the line "No
followers connected yet" is printed. -/
structure Summary where
  time : Nat
  connected : Nat
  rows : List SummaryRow
  none_yet : Bool
deriving DecidableEq, Repr

/-- Source `print_followers_summary`: the printed summary and the global
`followers` after the call. The loop visits the nodes of the map in their
order, by reference to constants; `now` is the value of `millis()`. -/
def print_followers_summary (followers : Nodes) (now : Nat) : Summary × Nodes :=
  ({ time := now,
     connected := followers.length,
     rows := followers.map (fun pair =>
       { device_id := pair.2.follower_id, mac_addr := pair.2.mac_addr.take 6,
         count := pair.2.event_count }),
     none_yet := followers.length == 0 },
   followers)

/-- A sequence of deliveries (sender address, buffer, time of receipt) as
calls of `OnDataReceived`. -/
def deliveries (ds : List (List Nat × List Nat × Nat)) : List LeaderCall :=
  ds.map (fun d => LeaderCall.receive d.1 d.2.1 d.2.2)

/-- Number of calls of `OnDataReceived` in a sequence. -/
def receive_calls (calls : List LeaderCall) : Nat :=
  (calls.filter (fun c => match c with
    | .receive _ _ _ => true
    | .check _ => false)).length

/-- Reports of `n` followers with the one-letter identities "A", "B", ...,
all received at time 1000. -/
def crowd (n : Nat) : List LeaderCall :=
  (List.range n).map (fun i => LeaderCall.receive F1_mac (report [65 + i] F1_mac 0) 1000)

/-- A record with the `DATA_PACKET` tag whose `follower_id` field holds 16
letters "A" and no NUL, link address 24:0A:C4:00:00:01 and the given event
count: the first NUL behind the tag is the fourth byte of the address. -/
def wide_id_packet (count : Nat) : List Nat :=
  [2] ++ List.replicate 16 65 ++ F1_mac ++ [0] ++ u32_bytes count

/-! # Theorems -/

/-! ## Layout facts -/

theorem sizeof_data_packet_t_eq : sizeof_data_packet_t = 28 := by decide

theorem offsetof_follower_id_eq : offsetof_follower_id = 1 := by decide

theorem offsetof_mac_addr_eq : offsetof_mac_addr = 17 := by decide

theorem offsetof_event_count_eq : offsetof_event_count = 24 := by decide

/-! ## The order of keys -/

theorem str_lt_irrefl (a : List Nat) : str_lt a a = false := by
  induction a with
  | nil => rfl
  | cons x xs ih => simp [str_lt, ih]

theorem str_lt_trans {a b c : List Nat} (hab : str_lt a b = true) (hbc : str_lt b c = true) :
    str_lt a c = true := by
  induction a generalizing b c with
  | nil =>
    cases b with
    | nil => simp [str_lt] at hab
    | cons y ys =>
      cases c with
      | nil => simp [str_lt] at hbc
      | cons z zs => simp [str_lt]
  | cons x xs ih =>
    cases b with
    | nil => simp [str_lt] at hab
    | cons y ys =>
      cases c with
      | nil => simp [str_lt] at hbc
      | cons z zs =>
        simp only [str_lt] at hab hbc ⊢
        by_cases hxy : x < y
        · by_cases hyz : y < z
          · have : x < z := by omega
            simp [this]
          · simp only [hyz, if_false] at hbc
            by_cases hzy : z < y
            · simp [hzy] at hbc
            · have : x < z := by omega
              simp [this]
        · simp only [hxy, if_false] at hab
          by_cases hyx : y < x
          · simp [hyx] at hab
          · simp only [hyx, if_false] at hab
            have hxy' : x = y := by omega
            subst hxy'
            by_cases hxz : x < z
            · simp [hxz]
            · simp only [hxz, if_false] at hbc ⊢
              by_cases hzx : z < x
              · simp [hzx] at hbc
              · simp only [hzx, if_false] at hbc ⊢
                exact ih hab hbc

theorem str_lt_total {a b : List Nat} (hab : str_lt a b = false) (hba : str_lt b a = false) :
    a = b := by
  induction a generalizing b with
  | nil =>
    cases b with
    | nil => rfl
    | cons y ys => simp [str_lt] at hab
  | cons x xs ih =>
    cases b with
    | nil => simp [str_lt] at hba
    | cons y ys =>
      simp only [str_lt] at hab hba
      by_cases hxy : x < y
      · simp [hxy] at hab
      · by_cases hyx : y < x
        · simp [hyx] at hba
        · simp only [hxy, hyx, if_false] at hab hba
          have : x = y := by omega
          rw [this, ih hab hba]

theorem str_lt_ne {a b : List Nat} (h : str_lt a b = true) : a ≠ b := by
  intro e
  subst e
  rw [str_lt_irrefl] at h
  exact Bool.noConfusion h

/-! ## The map operations -/

theorem map_assign_cons_lt {k kx : List Nat} (v vx : follower_t) (rest : Nodes)
    (h : str_lt k kx = true) : map_assign k v ((kx, vx) :: rest) = (k, v) :: (kx, vx) :: rest := by
  simp only [map_assign]
  rw [if_pos h]

theorem map_assign_cons_gt {k kx : List Nat} (v vx : follower_t) (rest : Nodes)
    (h : str_lt kx k = true) :
    map_assign k v ((kx, vx) :: rest) = (kx, vx) :: map_assign k v rest := by
  have h1 : ¬ str_lt k kx = true := by
    intro h'
    have := str_lt_trans h h'
    rw [str_lt_irrefl] at this
    exact Bool.noConfusion this
  simp only [map_assign]
  rw [if_neg h1, if_pos h]

theorem map_assign_cons_eq (k : List Nat) (v vx : follower_t) (rest : Nodes) :
    map_assign k v ((k, vx) :: rest) = (k, v) :: rest := by
  have h1 : ¬ str_lt k k = true := by
    rw [str_lt_irrefl]
    exact Bool.noConfusion
  simp only [map_assign]
  rw [if_neg h1, if_neg h1]

theorem str_lt_cases (a b : List Nat) : str_lt a b = true ∨ str_lt b a = true ∨ a = b := by
  by_cases h1 : str_lt a b = true
  · exact Or.inl h1
  · by_cases h2 : str_lt b a = true
    · exact Or.inr (Or.inl h2)
    · exact Or.inr (Or.inr (str_lt_total (by simpa using h1) (by simpa using h2)))

theorem map_find_assign (k k' : List Nat) (v : follower_t) (m : Nodes) :
    map_find k' (map_assign k v m) = if k' = k then some v else map_find k' m := by
  induction m with
  | nil =>
    by_cases h : k' = k
    · simp [map_assign, map_find, h]
    · have h' : ¬ k = k' := fun e => h e.symm
      simp [map_assign, map_find, h, h']
  | cons e rest ih =>
    obtain ⟨ke, ve⟩ := e
    rcases str_lt_cases k ke with h1 | h2 | rfl
    · rw [map_assign_cons_lt v ve rest h1]
      by_cases h : k' = k
      · simp [map_find, h]
      · have h' : ¬ k = k' := fun e => h e.symm
        simp [map_find, h, h']
    · rw [map_assign_cons_gt v ve rest h2]
      simp only [map_find, ih]
      by_cases h : ke = k'
      · have : ¬ k' = k := fun e => str_lt_ne h2 (h.trans e)
        simp [h, this]
      · simp [h]
    · rw [map_assign_cons_eq]
      by_cases h : k = k'
      · simp [map_find, h]
      · have h' : ¬ k' = k := fun e => h e.symm
        simp [map_find, h, h']

theorem key_of_mem_assign {k : List Nat} {v : follower_t} {m : Nodes} {e : List Nat × follower_t}
    (he : e ∈ map_assign k v m) : e.1 = k ∨ ∃ e' ∈ m, e'.1 = e.1 := by
  induction m with
  | nil =>
    simp only [map_assign, List.mem_singleton] at he
    exact Or.inl (by rw [he])
  | cons x rest ih =>
    obtain ⟨kx, vx⟩ := x
    rcases str_lt_cases k kx with h1 | h2 | rfl
    · rw [map_assign_cons_lt v vx rest h1] at he
      rcases List.mem_cons.mp he with h | h
      · exact Or.inl (by rw [h])
      · exact Or.inr ⟨e, h, rfl⟩
    · rw [map_assign_cons_gt v vx rest h2] at he
      rcases List.mem_cons.mp he with h | h
      · exact Or.inr ⟨(kx, vx), List.mem_cons_self _ _, by rw [h]⟩
      · rcases ih h with h' | ⟨e', he', hk⟩
        · exact Or.inl h'
        · exact Or.inr ⟨e', List.mem_cons_of_mem _ he', hk⟩
    · rw [map_assign_cons_eq] at he
      rcases List.mem_cons.mp he with h | h
      · exact Or.inl (by rw [h])
      · exact Or.inr ⟨e, List.mem_cons_of_mem _ h, rfl⟩

theorem ascending_assign (k : List Nat) (v : follower_t) {m : Nodes} (hm : Ascending m) :
    Ascending (map_assign k v m) := by
  induction m with
  | nil => simp [map_assign, Ascending]
  | cons x rest ih =>
    obtain ⟨kx, vx⟩ := x
    have hx : ∀ e ∈ rest, str_lt kx e.1 = true := (List.pairwise_cons.mp hm).1
    have hrest : Ascending rest := (List.pairwise_cons.mp hm).2
    rcases str_lt_cases k kx with h1 | h2 | rfl
    · rw [map_assign_cons_lt v vx rest h1]
      refine List.pairwise_cons.mpr ⟨?_, hm⟩
      intro e he
      rcases List.mem_cons.mp he with h | h
      · rw [h]; exact h1
      · exact str_lt_trans h1 (hx e h)
    · rw [map_assign_cons_gt v vx rest h2]
      refine List.pairwise_cons.mpr ⟨?_, ih hrest⟩
      intro e he
      show str_lt kx e.1 = true
      rcases key_of_mem_assign he with h | ⟨e', he', hk⟩
      · rw [h]; exact h2
      · rw [← hk]; exact hx e' he'
    · rw [map_assign_cons_eq]
      exact List.pairwise_cons.mpr ⟨hx, hrest⟩

theorem map_find_erase (k k' : List Nat) (m : Nodes) :
    map_find k' (map_erase k m) = if k' = k then none else map_find k' m := by
  induction m with
  | nil => simp [map_erase, map_find]
  | cons e rest ih =>
    obtain ⟨ke, ve⟩ := e
    simp only [map_erase, decide_not] at ih ⊢
    by_cases h : ke = k
    · subst h
      by_cases h' : k' = ke
      · subst h'
        simp [List.filter_cons, map_find, ih]
      · have h'' : ¬ ke = k' := fun e => h' e.symm
        simp [List.filter_cons, map_find, ih, h', h'']
    · by_cases h' : k' = k
      · subst h'
        simp [List.filter_cons, map_find, ih, h]
      · simp [List.filter_cons, map_find, ih, h, h']

theorem foldl_erase (ids : List (List Nat)) (m : Nodes) :
    ids.foldl (fun m id => map_erase id m) m = m.filter (fun e => decide (e.1 ∉ ids)) := by
  induction ids generalizing m with
  | nil => simp
  | cons id rest ih =>
    rw [List.foldl_cons, ih, map_erase, List.filter_filter]
    apply List.filter_congr
    intro e _
    by_cases h1 : e.1 = id <;> by_cases h2 : e.1 ∈ rest <;> simp [h1, h2]

theorem ascending_key_unique {m : Nodes} (hm : Ascending m) {e e' : List Nat × follower_t}
    (he : e ∈ m) (he' : e' ∈ m) (hk : e.1 = e'.1) : e = e' := by
  induction m with
  | nil => cases he
  | cons x rest ih =>
    have hx : ∀ y ∈ rest, str_lt x.1 y.1 = true := (List.pairwise_cons.mp hm).1
    have hrest : Ascending rest := (List.pairwise_cons.mp hm).2
    rcases List.mem_cons.mp he with h | h <;> rcases List.mem_cons.mp he' with h' | h'
    · rw [h, h']
    · exact absurd (by rw [← h, hk]) (str_lt_ne (hx e' h'))
    · exact absurd (by rw [← h', hk]) (str_lt_ne (hx e h))
    · exact ih hrest h h'

theorem map_find_of_mem {m : Nodes} (hm : Ascending m) {e : List Nat × follower_t}
    (he : e ∈ m) : map_find e.1 m = some e.2 := by
  induction m with
  | nil => cases he
  | cons x rest ih =>
    obtain ⟨kx, vx⟩ := x
    have hx : ∀ y ∈ rest, str_lt kx y.1 = true := (List.pairwise_cons.mp hm).1
    have hrest : Ascending rest := (List.pairwise_cons.mp hm).2
    rcases List.mem_cons.mp he with h | h
    · rw [h]
      simp [map_find]
    · have hne : ¬ kx = e.1 := str_lt_ne (hx e h)
      simp only [map_find]
      rw [if_neg hne]
      exact ih hrest h

theorem mem_of_map_find {m : Nodes} {k : List Nat} {v : follower_t}
    (h : map_find k m = some v) : (k, v) ∈ m := by
  induction m with
  | nil => simp [map_find] at h
  | cons x rest ih =>
    obtain ⟨kx, vx⟩ := x
    simp only [map_find] at h
    by_cases hk : kx = k
    · rw [if_pos hk] at h
      have hv : vx = v := Option.some.inj h
      rw [hk, hv]
      exact List.mem_cons_self _ _
    · rw [if_neg hk] at h
      exact List.mem_cons_of_mem _ (ih h)

theorem check_inactive_followers_eq_filter {m : Nodes} (hm : Ascending m) (now : Nat) :
    check_inactive_followers m now = m.filter (fun pair => !inactive now pair.2) := by
  rw [check_inactive_followers, foldl_erase]
  apply List.filter_congr
  intro e he
  by_cases hin : inactive now e.2 = true
  · have : e.1 ∈ to_remove m now := by
      simp only [to_remove, List.mem_map, List.mem_filter]
      exact ⟨e, ⟨he, hin⟩, rfl⟩
    simp [this, hin]
  · have : e.1 ∉ to_remove m now := by
      simp only [to_remove, List.mem_map, List.mem_filter]
      rintro ⟨e', ⟨he', hin'⟩, hk⟩
      have := ascending_key_unique hm he' he hk
      rw [this] at hin'
      exact hin hin'
    simp [this, hin]

theorem ascending_filter {m : Nodes} (hm : Ascending m) (p : List Nat × follower_t → Bool) :
    Ascending (m.filter p) :=
  List.Pairwise.sublist (List.filter_sublist m) hm

theorem sub32_sub32 (now d : Nat) (hd : d < U32) : sub32 now (sub32 now d) = d := by
  unfold sub32 U32 at *
  omega

/-! ## Claims -/

/-- C2. Eviction removes exactly the stale entries: for every registry and every
clock value `now`, `check_inactive_followers` run at `now` leaves precisely the
prior entries for which `now - last_seen > FOLLOWER_TIMEOUT` (10000, the
subtraction being that of `unsigned long`) is false, in their order and with
all fields unchanged. Scenario: "F1" last reports at 2000, "F2" keeps
reporting; the check at 12001 removes "F1" only and the registry holds only
"F2". -/
theorem C2_eviction_removes_exactly_stale :
    (∀ (reg : Registry) (now : Nat),
      check_inactive_followers reg.nodes now
        = reg.nodes.filter (fun pair => !decide (sub32 now pair.2.last_seen > 10000)))
    ∧ run_calls Registry.empty.nodes
        [.receive F1_mac (report F1 F1_mac 0) 1000, .receive F2_mac (report F2 F2_mac 0) 1000,
         .receive F1_mac (report F1 F1_mac 0) 2000, .receive F2_mac (report F2 F2_mac 0) 2000,
         .receive F2_mac (report F2 F2_mac 3) 7000, .receive F2_mac (report F2 F2_mac 3) 12000,
         .check 12001]
      = some [(F2, F2_entry 3 12000)] := by
  refine ⟨?_, by decide⟩
  intro reg now
  exact check_inactive_followers_eq_filter reg.ascending now

/-- C3. Eviction boundary: for every registry and clock value `now`, an entry
whose `last_seen` equals `now - FOLLOWER_TIMEOUT - 1` is absent after
`check_inactive_followers` runs at `now`, and an entry whose `last_seen` equals
`now - FOLLOWER_TIMEOUT + 1` is still present, unchanged (arithmetic of
`unsigned long`). -/
theorem C3_eviction_boundary (reg : Registry) (now : Nat) (id : List Nat) (f : follower_t)
    (hf : map_find id reg.nodes = some f) :
    (f.last_seen = sub32 (sub32 now FOLLOWER_TIMEOUT) 1 →
        map_find id (check_inactive_followers reg.nodes now) = none)
    ∧ (f.last_seen = (sub32 now FOLLOWER_TIMEOUT + 1) % U32 →
        map_find id (check_inactive_followers reg.nodes now) = some f) := by
  have hmem : (id, f) ∈ reg.nodes := mem_of_map_find hf
  rw [check_inactive_followers_eq_filter reg.ascending now]
  constructor
  · intro hl
    have hin : inactive now f = true := by
      simp only [inactive, decide_eq_true_eq, hl]
      unfold sub32 FOLLOWER_TIMEOUT U32
      omega
    cases hfind : map_find id (reg.nodes.filter (fun pair => !inactive now pair.2)) with
    | none => rfl
    | some g =>
      have hg := mem_of_map_find hfind
      rw [List.mem_filter] at hg
      have heq := ascending_key_unique reg.ascending hg.1 hmem rfl
      have hgf : g = f := congrArg Prod.snd heq
      have := hg.2
      rw [hgf] at this
      simp [hin] at this
  · intro hl
    have hin : inactive now f = false := by
      simp only [inactive, decide_eq_false_iff_not, hl]
      unfold sub32 FOLLOWER_TIMEOUT U32
      omega
    have hmem' : (id, f) ∈ reg.nodes.filter (fun pair => !inactive now pair.2) := by
      rw [List.mem_filter]
      exact ⟨hmem, by simp [hin]⟩
    exact map_find_of_mem (ascending_filter reg.ascending _) hmem'

/-- Witness of C3 at `now = 15000`: of the entries last seen at 4999 and at
5001, the check removes the first and keeps the second. -/
theorem C3_eviction_boundary_witness :
    map_find F1 (check_inactive_followers (Registry.single F1 (F1_entry 0 4999)).nodes 15000)
      = none
    ∧ map_find F2 (check_inactive_followers (Registry.single F2 (F2_entry 0 5001)).nodes 15000)
      = some (F2_entry 0 5001) :=
  ⟨(C3_eviction_boundary (Registry.single F1 (F1_entry 0 4999)) 15000 F1 (F1_entry 0 4999)
      (by decide)).1 (by decide),
   (C3_eviction_boundary (Registry.single F2 (F2_entry 0 5001)) 15000 F2 (F2_entry 0 5001)
      (by decide)).2 (by decide)⟩

/-- C4. Malformed input is dropped without effect: for every registry and
every received buffer whose length differs from `sizeof(data_packet_t)` or
whose first byte is not the `DATA_PACKET` tag (the empty buffer included),
`OnDataReceived` returns and leaves the registry exactly as it was. -/
theorem C4_malformed_input_dropped (reg : Registry) (mac_addr data : List Nat) (now : Nat)
    (h : data.length ≠ sizeof_data_packet_t ∨ data.head? ≠ some DATA_PACKET) :
    OnDataReceived reg.nodes mac_addr data now = some reg.nodes := by
  unfold OnDataReceived
  by_cases h0 : data.length ≤ 0
  · rw [if_pos h0]
  · rw [if_neg h0]
    have hcond : ¬ (data.getD 0 0 = DATA_PACKET ∧ data.length = sizeof_data_packet_t) := by
      rintro ⟨ht, hl⟩
      rcases h with h | h
      · exact h hl
      · apply h
        cases data with
        | nil => simp at h0
        | cons b rest =>
          simp only [List.getD_cons_zero] at ht
          simp [ht]
    simp only [hcond, if_false]

/-- Witness of C4: a record of 27 bytes with the `DATA_PACKET` tag, a record of
the right length with tag 1, and the empty buffer all leave a registry holding
"F1" as it was. -/
theorem C4_malformed_input_dropped_witness :
    OnDataReceived (Registry.single F1 (F1_entry 4 100)).nodes F2_mac
        ((report F2 F2_mac 9).take 27) 200 = some (Registry.single F1 (F1_entry 4 100)).nodes
    ∧ OnDataReceived (Registry.single F1 (F1_entry 4 100)).nodes F2_mac
        (1 :: (report F2 F2_mac 9).drop 1) 200 = some (Registry.single F1 (F1_entry 4 100)).nodes
    ∧ OnDataReceived (Registry.single F1 (F1_entry 4 100)).nodes F2_mac [] 200
        = some (Registry.single F1 (F1_entry 4 100)).nodes :=
  ⟨C4_malformed_input_dropped (Registry.single F1 (F1_entry 4 100)) F2_mac
      ((report F2 F2_mac 9).take 27) 200 (Or.inl (by decide)),
   C4_malformed_input_dropped (Registry.single F1 (F1_entry 4 100)) F2_mac
      (1 :: (report F2 F2_mac 9).drop 1) 200 (Or.inr (by decide)),
   C4_malformed_input_dropped (Registry.single F1 (F1_entry 4 100)) F2_mac [] 200
      (Or.inl (by decide))⟩

theorem c_str_of_mem_take {l : List Nat} {n : Nat} (h : 0 ∈ l.take n) :
    c_str l = c_str (l.take n) ∧ (c_str l).length < n ∧ 0 ∈ l := by
  induction l generalizing n with
  | nil => simp at h
  | cons b rest ih =>
    cases n with
    | zero => simp at h
    | succ m =>
      by_cases hb : b = 0
      · subst hb
        simp [c_str]
      · have hb' : ¬ 0 = b := fun e => hb e.symm
        have h' : 0 ∈ rest.take m := by
          simpa [List.take_succ_cons, hb'] using h
        obtain ⟨h1, h2, h3⟩ := ih h'
        unfold c_str at h1 h2 ⊢
        refine ⟨?_, ?_, List.mem_cons_of_mem _ h3⟩
        · simp [List.take_succ_cons, List.takeWhile_cons, hb, h1]
        · simp only [List.takeWhile_cons, bne_iff_ne, ne_eq, hb, not_false_eq_true, decide_True,
            if_true, List.length_cons]
          omega

theorem getD_zero_of_head {data : List Nat} {b : Nat} (h : data.head? = some b) :
    data.getD 0 0 = b := by
  cases data with
  | nil => simp at h
  | cons x rest => simpa using h

theorem OnDataReceived_of_valid {data : List Nat} (hv : valid_data_packet data)
    (m : Nodes) (mac_addr : List Nat) (now : Nat) :
    OnDataReceived m mac_addr data now
      = (follower_id_str data).map (fun id =>
          map_assign id
            { mac_addr := packet_mac_addr data, follower_id := id.take 15,
              event_count := packet_event_count data, last_seen := now } m) := by
  obtain ⟨hl, hh⟩ := hv
  have h0 : ¬ data.length ≤ 0 := by
    rw [hl, sizeof_data_packet_t_eq]
    omega
  have hc : data.getD 0 0 = DATA_PACKET ∧ data.length = sizeof_data_packet_t :=
    ⟨getD_zero_of_head hh, hl⟩
  unfold OnDataReceived
  rw [if_neg h0]
  simp only [hc, and_self, if_true]
  cases follower_id_str data <;> rfl

theorem follower_id_str_of_terminated {data : List Nat}
    (hz : 0 ∈ (data.drop offsetof_follower_id).take 16) :
    follower_id_str data = some (packet_identity data) ∧ (packet_identity data).length ≤ 15 := by
  obtain ⟨h1, h2, h3⟩ := c_str_of_mem_take hz
  unfold follower_id_str packet_identity
  rw [if_pos h3, h1]
  refine ⟨rfl, ?_⟩
  rw [← h1]
  omega

theorem OnDataReceived_of_terminated {data : List Nat} (hv : valid_data_packet data)
    (hz : 0 ∈ (data.drop offsetof_follower_id).take 16)
    (m : Nodes) (mac_addr : List Nat) (now : Nat) :
    OnDataReceived m mac_addr data now
      = some (map_assign (packet_identity data)
          { mac_addr := packet_mac_addr data, follower_id := packet_identity data,
            event_count := packet_event_count data, last_seen := now } m) := by
  obtain ⟨h1, h2⟩ := follower_id_str_of_terminated hz
  rw [OnDataReceived_of_valid hv, h1]
  simp only [Option.map_some']
  rw [List.take_of_length_le h2]

theorem map_assign_assign (k : List Nat) (v w : follower_t) (m : Nodes) :
    map_assign k v (map_assign k w m) = map_assign k v m := by
  induction m with
  | nil =>
    show map_assign k v [(k, w)] = [(k, v)]
    rw [map_assign_cons_eq]
  | cons x rest ih =>
    obtain ⟨kx, vx⟩ := x
    rcases str_lt_cases k kx with h1 | h2 | rfl
    · rw [map_assign_cons_lt w vx rest h1, map_assign_cons_eq, map_assign_cons_lt v vx rest h1]
    · rw [map_assign_cons_gt w vx rest h2, map_assign_cons_gt v vx _ h2,
        map_assign_cons_gt v vx rest h2, ih]
    · rw [map_assign_cons_eq, map_assign_cons_eq, map_assign_cons_eq]

/-- C1 (as amended). Upsert is last-writer-wins: for every registry and every
two valid DATA packets `p1`, `p2` whose 16-byte identity field holds a NUL
(identity text of at most 15 bytes) and that carry the same identity,
delivered to `OnDataReceived` in that order at times `t1` and `t2`, both
deliveries return and the registry entry for that identity afterwards has link
address, identity and event count equal to those of `p2` and `last_seen` equal
to `t2`; nothing of `p1` or `t1` remains: the registry is the one that the
delivery of `p2` alone produces. -/
theorem C1_upsert_last_writer_wins (reg : Registry) (mac1 mac2 p1 p2 : List Nat) (t1 t2 : Nat)
    (hv1 : valid_data_packet p1) (hv2 : valid_data_packet p2)
    (hz1 : 0 ∈ (p1.drop offsetof_follower_id).take 16)
    (hz2 : 0 ∈ (p2.drop offsetof_follower_id).take 16)
    (hid : packet_identity p1 = packet_identity p2) :
    ∃ m1 m2, OnDataReceived reg.nodes mac1 p1 t1 = some m1
      ∧ OnDataReceived m1 mac2 p2 t2 = some m2
      ∧ map_find (packet_identity p2) m2
          = some { mac_addr := packet_mac_addr p2, follower_id := packet_identity p2,
                   event_count := packet_event_count p2, last_seen := t2 }
      ∧ OnDataReceived reg.nodes mac2 p2 t2 = some m2 := by
  refine ⟨_, _, OnDataReceived_of_terminated hv1 hz1 _ _ _,
    OnDataReceived_of_terminated hv2 hz2 _ _ _, ?_, ?_⟩
  · rw [map_find_assign, if_pos rfl]
  · rw [OnDataReceived_of_terminated hv2 hz2, hid, map_assign_assign]

/-- Witness of C1: "F1" reports count 0 at 1000 and count 1 from another
address at 2000; the entry of "F1" is that of the second report. -/
theorem C1_upsert_last_writer_wins_witness :
    ∃ m1 m2, OnDataReceived Registry.empty.nodes F1_mac (report F1 F1_mac 0) 1000 = some m1
      ∧ OnDataReceived m1 F2_mac (report F1 F2_mac 1) 2000 = some m2
      ∧ map_find (packet_identity (report F1 F2_mac 1)) m2
          = some { mac_addr := packet_mac_addr (report F1 F2_mac 1),
                   follower_id := packet_identity (report F1 F2_mac 1),
                   event_count := packet_event_count (report F1 F2_mac 1), last_seen := 2000 }
      ∧ OnDataReceived Registry.empty.nodes F2_mac (report F1 F2_mac 1) 2000 = some m2 :=
  C1_upsert_last_writer_wins Registry.empty F1_mac F2_mac (report F1 F1_mac 0)
    (report F1 F2_mac 1) 1000 2000 (by decide) (by decide) (by decide) (by decide) (by decide)

/-- C1 as stated fails: `long_id_packet` is a valid DATA packet whose identity
field holds 16 letters; delivered twice, the entry found under the identity it
carries stores only the first 15 letters as its identity. -/
theorem C1_counterexample :
    valid_data_packet long_id_packet
    ∧ ∃ m1 m2, OnDataReceived Registry.empty.nodes F1_mac long_id_packet 1000 = some m1
      ∧ OnDataReceived m1 F1_mac long_id_packet 2000 = some m2
      ∧ ∃ f, map_find (packet_identity long_id_packet) m2 = some f
        ∧ f.follower_id = List.replicate 15 65
        ∧ f.follower_id ≠ packet_identity long_id_packet := by
  refine ⟨by decide, _, _, rfl, rfl, _, rfl, by decide, by decide⟩

/-! ## Stores into a buffer -/

theorem length_poke {buf bytes : List Nat} {off : Nat} (h : off + bytes.length ≤ buf.length) :
    (poke buf off bytes).length = buf.length := by
  simp only [poke, List.length_append, List.length_take, List.length_drop]
  omega

theorem drop_poke {buf : List Nat} {off : Nat} (bytes : List Nat) (h : off ≤ buf.length) :
    (poke buf off bytes).drop off = bytes ++ buf.drop (off + bytes.length) := by
  have hl : (buf.take off).length = off := by
    rw [List.length_take]
    omega
  unfold poke
  rw [List.append_assoc, List.drop_append_of_le_length (by omega)]
  rw [List.drop_of_length_le (by omega)]
  rfl

theorem take_poke {buf : List Nat} {off n : Nat} (bytes : List Nat) (hn : n ≤ off)
    (h : off ≤ buf.length) : (poke buf off bytes).take n = buf.take n := by
  have hl : (buf.take off).length = off := by
    rw [List.length_take]
    omega
  unfold poke
  rw [List.append_assoc, List.take_append_of_le_length (by omega), List.take_take]
  congr 1
  omega

/-- A field that ends before `off` is not touched by a store at `off`. -/
theorem field_poke {buf : List Nat} {off a n : Nat} (bytes : List Nat) (hn : a + n ≤ off)
    (h : off ≤ buf.length) : ((poke buf off bytes).drop a).take n = (buf.drop a).take n := by
  rw [List.take_drop, List.take_drop, take_poke bytes hn h]

/-- A field read back right after it was stored. -/
theorem field_poke_self {buf : List Nat} {off : Nat} (bytes : List Nat) (h : off ≤ buf.length) :
    ((poke buf off bytes).drop off).take bytes.length = bytes := by
  rw [drop_poke bytes h, List.take_left']
  rfl

theorem c_str_append_nul {t : List Nat} (ht : 0 ∉ t) (rest : List Nat) :
    c_str (t ++ 0 :: rest) = t := by
  induction t with
  | nil => simp [c_str]
  | cons b bs ih =>
    have hb : b ≠ 0 := fun e => ht (by simp [e])
    have hbs : 0 ∉ bs := fun e => ht (List.mem_cons_of_mem _ e)
    have := ih hbs
    unfold c_str at this ⊢
    simp [List.takeWhile_cons, hb, this]

theorem nul_not_mem_c_str (l : List Nat) : 0 ∉ c_str l := by
  intro h
  have := List.mem_takeWhile_imp h
  simp at this

theorem c_str_of_no_nul {l : List Nat} (h : 0 ∉ l) : c_str l = l := by
  induction l with
  | nil => rfl
  | cons b bs ih =>
    have hb : b ≠ 0 := fun e => h (by simp [e])
    have hbs : 0 ∉ bs := fun e => h (List.mem_cons_of_mem _ e)
    have := ih hbs
    unfold c_str at this ⊢
    simp [List.takeWhile_cons, hb, this]

theorem u32_at_of_drop {buf : List Nat} {off : Nat} {b0 b1 b2 b3 : Nat} {rest : List Nat}
    (h : buf.drop off = b0 :: b1 :: b2 :: b3 :: rest) :
    u32_at buf off = b0 + 256 * b1 + 65536 * b2 + 16777216 * b3 := by
  have e0 : buf[off]? = some b0 := by
    have := List.getElem?_drop buf off 0
    rw [h] at this
    simpa using this.symm
  have e1 : buf[off + 1]? = some b1 := by
    have := List.getElem?_drop buf off 1
    rw [h] at this
    simpa using this.symm
  have e2 : buf[off + 2]? = some b2 := by
    have := List.getElem?_drop buf off 2
    rw [h] at this
    simpa using this.symm
  have e3 : buf[off + 3]? = some b3 := by
    have := List.getElem?_drop buf off 3
    rw [h] at this
    simpa using this.symm
  simp [u32_at, e0, e1, e2, e3]

theorem u32_bytes_value (v : Nat) :
    v % 256 + 256 * (v / 256 % 256) + 65536 * (v / 65536 % 256)
      + 16777216 * (v / 16777216 % 256) = v % U32 := by
  unfold U32
  omega

/-! ## The packet of the follower -/

theorem length_strlcpy_le (src : List Nat) : (strlcpy src 16).length ≤ 16 := by
  simp only [strlcpy, List.length_append, List.length_take, List.length_singleton]
  omega

theorem length_memcpy (src : List Nat) (n : Nat) : (memcpy src n).length = n := by
  simp [memcpy]

theorem memcpy_of_length {src : List Nat} {n : Nat} (h : src.length = n) : memcpy src n = src := by
  unfold memcpy
  rw [List.take_append_of_le_length (by omega), List.take_of_length_le (by omega)]

/-- The packet `send_data` builds: its length, tag, identity field, link
address and event count. -/
theorem build_packet_fields (fid : List Nat) (s : Follower) (junk : List Nat) :
    (build_packet fid s junk).length = 28
    ∧ (build_packet fid s junk).head? = some DATA_PACKET
    ∧ (∃ rest, (build_packet fid s junk).drop 1
          = ((c_str fid).take 15 ++ 0 :: rest))
    ∧ packet_mac_addr (build_packet fid s junk) = memcpy s.mac_addr 6
    ∧ packet_event_count (build_packet fid s junk) = s.event_counter % U32 := by
  unfold build_packet packet_mac_addr packet_event_count
  simp only [sizeof_data_packet_t_eq, offsetof_follower_id_eq, offsetof_mac_addr_eq,
    offsetof_event_count_eq]
  generalize hp0 : (junk ++ List.replicate 28 0).take 28 = p0
  have l0 : p0.length = 28 := by
    rw [← hp0]
    simp
  generalize hp1 : poke p0 0 [DATA_PACKET] = p1
  have l1 : p1.length = 28 := by
    rw [← hp1, length_poke (by simp; omega), l0]
  have hs : (strlcpy fid 16).length ≤ 16 := length_strlcpy_le fid
  generalize hp2 : poke p1 1 (strlcpy fid 16) = p2
  have l2 : p2.length = 28 := by
    rw [← hp2, length_poke (by omega), l1]
  have hm : (memcpy s.mac_addr 6).length = 6 := length_memcpy _ _
  generalize hp3 : poke p2 17 (memcpy s.mac_addr 6) = p3
  have l3 : p3.length = 28 := by
    rw [← hp3, length_poke (by omega), l2]
  have hu : (u32_bytes s.event_counter).length = 4 := rfl
  generalize hp4 : poke p3 24 (u32_bytes s.event_counter) = p4
  have l4 : p4.length = 28 := by
    rw [← hp4, length_poke (by omega), l3]
  have d4 : p4.drop 24 = u32_bytes s.event_counter ++ p3.drop (24 + 4) := by
    rw [← hp4, drop_poke _ (by omega), hu]
  have t4 : p4.take 24 = p3.take 24 := by
    rw [← hp4, take_poke _ (le_refl _) (by omega)]
  have t3 : p3.take 17 = p2.take 17 := by
    rw [← hp3, take_poke _ (le_refl _) (by omega)]
  have d3 : p3.drop 17 = memcpy s.mac_addr 6 ++ p2.drop (17 + 6) := by
    rw [← hp3, drop_poke _ (by omega), hm]
  have t2 : p2.take 1 = p1.take 1 := by
    rw [← hp2, take_poke _ (le_refl _) (by omega)]
  have d2 : p2.drop 1 = strlcpy fid 16 ++ p1.drop (1 + (strlcpy fid 16).length) := by
    rw [← hp2, drop_poke _ (by omega)]
  have d1 : p1 = DATA_PACKET :: p0.drop 1 := by
    have := @drop_poke p0 0 [DATA_PACKET] (by omega)
    rw [hp1] at this
    simpa using this
  refine ⟨l4, ?_, ?_, ?_, ?_⟩
  · have h17 : p4.take 1 = p1.take 1 := by
      have a : p4.take 1 = (p4.take 24).take 1 := by rw [List.take_take]; rfl
      have b : p3.take 1 = (p3.take 17).take 1 := by rw [List.take_take]; rfl
      rw [a, t4, List.take_take, show min 1 24 = 1 from rfl, b, t3, List.take_take,
        show min 1 17 = 1 from rfl, t2]
    rw [d1] at h17
    cases p4 with
    | nil => simp at l4
    | cons x xs =>
      simp only [List.take_succ_cons, List.take_zero, List.cons.injEq, and_true] at h17
      simp [h17]
  · have h17 : p4.take 17 = p2.take 17 := by
      have a : p4.take 17 = (p4.take 24).take 17 := by rw [List.take_take]; rfl
      rw [a, t4, List.take_take, show min 17 24 = 17 from rfl, t3]
    have hsplit : p4.drop 1 = (p4.take 17).drop 1 ++ p4.drop 17 := by
      have hl : (p4.take 17).length = 17 := by rw [List.length_take]; omega
      conv_lhs => rw [← List.take_append_drop 17 p4]
      rw [List.drop_append_of_le_length (by omega)]
    rw [hsplit, h17, List.drop_take, d2, List.take_append_eq_append_take]
    refine ⟨List.take (17 - 1 - (strlcpy fid 16).length)
      (p1.drop (1 + (strlcpy fid 16).length)) ++ p4.drop 17, ?_⟩
    rw [List.take_of_length_le (by omega)]
    simp [strlcpy]
  · have a : (p4.drop 17).take 6 = (p3.drop 17).take 6 := by
      rw [← hp4]
      exact field_poke _ (by omega) (by omega)
    rw [a, d3, List.take_left' hm]
  · rw [u32_at_of_drop (by rw [d4]; rfl), u32_bytes_value]

theorem follower_id_str_build_packet (fid : List Nat) (s : Follower) (junk : List Nat) :
    follower_id_str (build_packet fid s junk) = some ((c_str fid).take 15) := by
  obtain ⟨_, _, ⟨rest, hd⟩, _, _⟩ := build_packet_fields fid s junk
  have hno : 0 ∉ (c_str fid).take 15 := fun h => nul_not_mem_c_str fid (List.mem_of_mem_take h)
  unfold follower_id_str
  rw [offsetof_follower_id_eq, hd, if_pos (by simp), c_str_append_nul hno]

theorem OnDataReceived_build_packet (m : Nodes) (sender : List Nat) (fid : List Nat)
    (s : Follower) (junk : List Nat) (now : Nat) :
    OnDataReceived m sender (build_packet fid s junk) now
      = some (map_assign ((c_str fid).take 15)
          { mac_addr := memcpy s.mac_addr 6, follower_id := (c_str fid).take 15,
            event_count := s.event_counter % U32, last_seen := now } m) := by
  obtain ⟨hl, hh, _, hm, he⟩ := build_packet_fields fid s junk
  have hv : valid_data_packet (build_packet fid s junk) := by
    refine ⟨?_, hh⟩
    rw [hl, sizeof_data_packet_t_eq]
  rw [OnDataReceived_of_valid hv, follower_id_str_build_packet, hm, he]
  simp only [Option.map_some']
  rw [List.take_take, Nat.min_self]

/-- C5 (as amended). Round trip: for every follower state with an identity
text of at most 15 bytes without NUL, a 6-byte link address and a 32-bit event
count, the packet that `send_data` hands to the transport, delivered to
`OnDataReceived` on any registry at any time, is accepted and the registry
then holds under that identity an entry whose identity, link address and
event count are those of the state. -/
theorem C5_round_trip (reg : Registry) (fid : List Nat) (s : Follower) (junk : List Nat)
    (ok : Bool) (sent_at : Nat) (sender : List Nat) (now : Nat)
    (hlen : fid.length ≤ 15) (hnul : 0 ∉ fid) (hmac : s.mac_addr.length = 6)
    (hcount : s.event_counter < U32) :
    ∃ pkt m, (send_data fid s junk ok sent_at).sent = [(leader_mac, pkt)]
      ∧ OnDataReceived reg.nodes sender pkt now = some m
      ∧ map_find fid m = some { mac_addr := s.mac_addr, follower_id := fid,
                                event_count := s.event_counter, last_seen := now } := by
  refine ⟨build_packet fid s junk, _, rfl, OnDataReceived_build_packet _ _ _ _ _ _, ?_⟩
  rw [c_str_of_no_nul hnul, List.take_of_length_le hlen, map_find_assign, if_pos rfl,
    memcpy_of_length hmac, Nat.mod_eq_of_lt hcount]

/-- Witness of C5: the follower built with `FOLLOWER_ID`, address
24:0A:C4:00:00:01 and counter 300. -/
theorem C5_round_trip_witness :
    ∃ pkt m, (send_data FOLLOWER_ID
        { event_counter := 300, last_pin_state := true, last_data_sent := 0, mac_addr := F1_mac }
        [] true 1000).sent = [(leader_mac, pkt)]
      ∧ OnDataReceived Registry.empty.nodes F1_mac pkt 1004 = some m
      ∧ map_find FOLLOWER_ID m = some { mac_addr := F1_mac, follower_id := FOLLOWER_ID,
                                        event_count := 300, last_seen := 1004 } :=
  C5_round_trip Registry.empty FOLLOWER_ID
    { event_counter := 300, last_pin_state := true, last_data_sent := 0, mac_addr := F1_mac }
    [] true 1000 F1_mac 1004 (by decide) (by decide) (by decide) (by decide)

/-- C5 as stated fails for an identity of 16 bytes: the packet that `send_data`
builds for the identity of 16 letters "A" is accepted, but the registry then
holds no entry under that identity; its only entry has the first 15 letters as
key and as identity. -/
theorem C5_counterexample :
    (List.replicate 16 65).length ≤ 16 ∧ 0 ∉ List.replicate 16 65
    ∧ ∃ pkt m, (send_data (List.replicate 16 65)
        { event_counter := 5, last_pin_state := false, last_data_sent := 0, mac_addr := F1_mac }
        [] true 1000).sent = [(leader_mac, pkt)]
      ∧ OnDataReceived Registry.empty.nodes F1_mac pkt 1004 = some m
      ∧ map_find (List.replicate 16 65) m = none
      ∧ m = [(List.replicate 15 65, { mac_addr := F1_mac, follower_id := List.replicate 15 65,
                                      event_count := 5, last_seen := 1004 })] := by
  refine ⟨by decide, by decide, _, _, rfl, rfl, by decide, by decide⟩

/-- C9 (as amended). Fixed record size: for every follower state, the buffer
that `send_data` hands to the transport has exactly `sizeof(data_packet_t)`
= 28 bytes (1 kind + 16 identity + 6 link address + 1 byte of padding that
aligns the count + 4 event count), and `OnDataReceived` leaves the registry
untouched for a buffer of any other length. -/
theorem C9_fixed_record_size :
    sizeof_data_packet_t = 28
    ∧ (∀ (fid : List Nat) (s : Follower) (junk : List Nat) (ok : Bool) (now : Nat),
        ∃ pkt, (send_data fid s junk ok now).sent = [(leader_mac, pkt)]
          ∧ pkt.length = sizeof_data_packet_t)
    ∧ (∀ (reg : Registry) (mac_addr data : List Nat) (now : Nat),
        data.length ≠ sizeof_data_packet_t →
          OnDataReceived reg.nodes mac_addr data now = some reg.nodes) := by
  refine ⟨sizeof_data_packet_t_eq, ?_, ?_⟩
  · intro fid s junk ok now
    refine ⟨build_packet fid s junk, rfl, ?_⟩
    rw [(build_packet_fields fid s junk).1, sizeof_data_packet_t_eq]
  · intro reg mac_addr data now h
    unfold OnDataReceived
    by_cases h0 : data.length ≤ 0
    · rw [if_pos h0]
    · rw [if_neg h0]
      have hcond : ¬ (data.getD 0 0 = DATA_PACKET ∧ data.length = sizeof_data_packet_t) :=
        fun hc => h hc.2
      simp only [hcond, if_false]

/-- Witness of C9: the first 27 bytes of a packet of "F2" are dropped by a
registry holding "F1". -/
theorem C9_fixed_record_size_witness :
    ((report F2 F2_mac 9).take 27).length ≠ sizeof_data_packet_t
    ∧ OnDataReceived (Registry.single F1 (F1_entry 4 100)).nodes F2_mac
        ((report F2 F2_mac 9).take 27) 200 = some (Registry.single F1 (F1_entry 4 100)).nodes :=
  ⟨by decide, C9_fixed_record_size.2.2 (Registry.single F1 (F1_entry 4 100)) F2_mac
    ((report F2 F2_mac 9).take 27) 200 (by decide)⟩

/-- C9 as stated fails: the buffer `send_data` hands to the transport has 28
bytes, not 27, and a buffer of 27 bytes holding the tag, the identity, the
link address and the count back to back is not accepted. -/
theorem C9_counterexample :
    (∃ pkt, (send_data FOLLOWER_ID (Follower.init F1_mac) [] true 1000).sent
        = [(leader_mac, pkt)] ∧ pkt.length = 28 ∧ pkt.length ≠ 27)
    ∧ ([2] ++ memcpy FOLLOWER_ID 16 ++ F1_mac ++ u32_bytes 0).length = 27
    ∧ OnDataReceived Registry.empty.nodes F1_mac
        ([2] ++ memcpy FOLLOWER_ID 16 ++ F1_mac ++ u32_bytes 0) 1000
      = some Registry.empty.nodes := by
  refine ⟨⟨_, rfl, by decide, by decide⟩, by decide, by decide⟩

/-! ## The follower's counter -/

theorem check_pin_state_level (s : Follower) (level : Bool) :
    (check_pin_state s level).last_pin_state = level := by
  unfold check_pin_state
  by_cases h : level = s.last_pin_state
  · simp [h]
  · simp [h]

theorem check_pin_state_counter (s : Follower) (level : Bool) :
    (check_pin_state s level).event_counter
      = if level != s.last_pin_state then (s.event_counter + 1) % U32 else s.event_counter := by
  unfold check_pin_state
  by_cases h : level = s.last_pin_state
  · simp [h]
  · simp [h]

theorem observe_counter (s : Follower) (levels : List Bool) (h : s.event_counter < U32) :
    (observe s levels).event_counter
      = (s.event_counter + level_changes s.last_pin_state levels) % U32 := by
  induction levels generalizing s with
  | nil => simp [observe, level_changes, Nat.mod_eq_of_lt h]
  | cons l rest ih =>
    have hlt : (check_pin_state s l).event_counter < U32 := by
      rw [check_pin_state_counter]
      by_cases hl : (l != s.last_pin_state) = true
      · rw [if_pos hl]
        exact Nat.mod_lt _ (by unfold U32; omega)
      · rw [if_neg hl]
        exact h
    have := ih (check_pin_state s l) hlt
    unfold observe at this ⊢
    rw [List.foldl_cons, this, check_pin_state_level, check_pin_state_counter]
    simp only [level_changes]
    by_cases hl : (l != s.last_pin_state) = true
    · rw [if_pos hl, if_pos hl]
      simp only [U32]
      omega
    · rw [if_neg hl, if_neg hl]
      simp only [U32]
      omega

theorem observe_level (s : Follower) (levels : List Bool) :
    (observe s levels).last_pin_state = levels.getLast?.getD s.last_pin_state := by
  induction levels generalizing s with
  | nil => rfl
  | cons l rest ih =>
    have := ih (check_pin_state s l)
    unfold observe at this ⊢
    rw [List.foldl_cons, this, check_pin_state_level]
    cases rest with
    | nil => rfl
    | cons r rs =>
      rw [List.getLast?_cons_cons, List.getLast?_eq_getLast _ (List.cons_ne_nil r rs)]
      rfl

theorem level_changes_toggling (n : Nat) (last : Bool) :
    level_changes last (toggling n last) = n := by
  induction n generalizing last with
  | zero => rfl
  | succ k ih =>
    simp only [toggling, level_changes, ih]
    cases last <;> simp <;> omega

theorem observe_toggling (s : Follower) (n : Nat) (h : s.event_counter < U32) :
    (observe s (toggling n s.last_pin_state)).event_counter = (s.event_counter + n) % U32 := by
  rw [observe_counter s _ h, level_changes_toggling]

/-- C6 (as amended). Counter semantics: for every initial stored level and
every finite sequence of observed levels fed one by one to `check_pin_state`
starting from `event_counter = 0`, the final `event_counter` equals the number
of observations whose level differs from the level stored just before them,
reduced modulo 2^32 (so it is that number whenever there are fewer than 2^32
changes), and the stored level afterwards is the last observed level (the
initial one when nothing was observed). -/
theorem C6_counter_semantics (level0 : Bool) (sent_at : Nat) (mac : List Nat)
    (levels : List Bool) :
    (observe { event_counter := 0, last_pin_state := level0, last_data_sent := sent_at,
               mac_addr := mac } levels).event_counter
        = level_changes level0 levels % U32
    ∧ (observe { event_counter := 0, last_pin_state := level0, last_data_sent := sent_at,
                 mac_addr := mac } levels).last_pin_state
        = levels.getLast?.getD level0 := by
  refine ⟨?_, observe_level _ _⟩
  rw [observe_counter _ _ (by unfold U32; simp)]
  simp

/-- C6 as stated fails on a pin that changes at each of 2^32 readings: the
number of level changes is 2^32 and the counter is back at 0. -/
theorem C6_counterexample :
    level_changes false (toggling U32 false) = 4294967296
    ∧ (observe (Follower.init F1_mac) (toggling U32 false)).event_counter = 0 := by
  refine ⟨level_changes_toggling _ _, ?_⟩
  have h0 : (Follower.init F1_mac).event_counter < U32 := by decide
  exact (observe_toggling (Follower.init F1_mac) U32 h0).trans (Nat.add_mod_right 0 U32)

theorem run_follower_counter (fid : List Nat) (s : Follower) (calls : List FollowerCall) :
    (s.event_counter + pin_reads calls < U32 →
      s.event_counter ≤ (run_follower fid s calls).event_counter)
    ∧ (run_follower fid s calls).event_counter ≤ s.event_counter + pin_reads calls := by
  induction calls generalizing s with
  | nil => simp [run_follower, pin_reads]
  | cons c rest ih =>
    have hstep := ih (FollowerCall.run fid s c)
    unfold run_follower at hstep ⊢
    rw [List.foldl_cons]
    cases c with
    | check_pin level =>
      have hp : pin_reads (FollowerCall.check_pin level :: rest) = pin_reads rest + 1 := by
        simp [pin_reads]
      have hc := check_pin_state_counter s level
      rw [hp]
      simp only [FollowerCall.run] at hstep ⊢
      by_cases hl : (level != s.last_pin_state) = true
      · rw [if_pos hl] at hc
        constructor
        · intro hb
          have h1 : (s.event_counter + 1) % U32 = s.event_counter + 1 :=
            Nat.mod_eq_of_lt (by omega)
          have := hstep.1 (by omega)
          omega
        · have h1 : (s.event_counter + 1) % U32 ≤ s.event_counter + 1 := Nat.mod_le _ _
          have := hstep.2
          omega
      · rw [if_neg hl] at hc
        constructor
        · intro hb
          have := hstep.1 (by omega)
          omega
        · have := hstep.2
          omega
    | send junk ok now =>
      have hp : pin_reads (FollowerCall.send junk ok now :: rest) = pin_reads rest := by
        simp [pin_reads]
      rw [hp]
      simp only [FollowerCall.run, send_data] at hstep ⊢
      exact hstep

theorem pin_reads_append (a b : List FollowerCall) :
    pin_reads (a ++ b) = pin_reads a + pin_reads b := by
  simp [pin_reads]

/-- C7 (as amended). Counter monotonicity: for every follower state whose
32-bit `event_counter` is below 2^32 - 1 and every observed level, the counter
after `check_pin_state` is greater than or equal to the counter before it;
`send_data` leaves the counter as it is; hence along every sequence of
follower operations (`check_pin_state`, `send_data`) that calls
`check_pin_state` fewer than 2^32 - `event_counter` times, the counter at any
point is at most the counter at any later point. -/
theorem C7_counter_monotone :
    (∀ (s : Follower) (level : Bool), s.event_counter < U32 - 1 →
        s.event_counter ≤ (check_pin_state s level).event_counter)
    ∧ (∀ (fid : List Nat) (s : Follower) (junk : List Nat) (ok : Bool) (now : Nat),
        (send_data fid s junk ok now).state.event_counter = s.event_counter)
    ∧ (∀ (fid : List Nat) (s : Follower) (before after : List FollowerCall),
        s.event_counter + pin_reads (before ++ after) < U32 →
          (run_follower fid s before).event_counter
            ≤ (run_follower fid s (before ++ after)).event_counter) := by
  refine ⟨?_, ?_, ?_⟩
  · intro s level h
    rw [check_pin_state_counter]
    by_cases hl : (level != s.last_pin_state) = true
    · rw [if_pos hl, Nat.mod_eq_of_lt (by omega)]
      omega
    · rw [if_neg hl]
  · intro fid s junk ok now
    rfl
  · intro fid s before after h
    rw [pin_reads_append] at h
    have h1 := (run_follower_counter fid s before).2
    have h2 := (run_follower_counter fid (run_follower fid s before) after).1 (by omega)
    have : run_follower fid s (before ++ after)
        = run_follower fid (run_follower fid s before) after := by
      simp [run_follower, List.foldl_append]
    rw [this]
    exact h2

/-- Witness of C7: from counter 7 and level low, the readings high, high, a
send, low raise the counter to 8 and then to 9. -/
theorem C7_counter_monotone_witness :
    (7 : Nat) ≤ (check_pin_state
        { event_counter := 7, last_pin_state := false, last_data_sent := 0, mac_addr := F1_mac }
        true).event_counter
    ∧ (run_follower FOLLOWER_ID
        { event_counter := 7, last_pin_state := false, last_data_sent := 0, mac_addr := F1_mac }
        [.check_pin true, .check_pin true]).event_counter
      ≤ (run_follower FOLLOWER_ID
        { event_counter := 7, last_pin_state := false, last_data_sent := 0, mac_addr := F1_mac }
        ([.check_pin true, .check_pin true] ++ [.send [] true 1000, .check_pin false])).event_counter :=
  ⟨C7_counter_monotone.1
      { event_counter := 7, last_pin_state := false, last_data_sent := 0, mac_addr := F1_mac }
      true (by decide),
   C7_counter_monotone.2.2 FOLLOWER_ID
      { event_counter := 7, last_pin_state := false, last_data_sent := 0, mac_addr := F1_mac }
      [.check_pin true, .check_pin true] [.send [] true 1000, .check_pin false] (by decide)⟩

/-- C7 as stated fails at the largest value of the counter: with
`event_counter = 2^32 - 1` and the stored level low, reading the level high
makes `check_pin_state` wrap the counter to 0. -/
theorem C7_counterexample :
    (check_pin_state
        { event_counter := 4294967295, last_pin_state := false, last_data_sent := 0,
          mac_addr := F1_mac } true).event_counter = 0
    ∧ ¬ ((4294967295 : Nat) ≤ (check_pin_state
        { event_counter := 4294967295, last_pin_state := false, last_data_sent := 0,
          mac_addr := F1_mac } true).event_counter) := by
  refine ⟨by decide, by decide⟩

/-- C8 (as amended). Send cadence: for every follower state (6-byte link
address, 32-bit counter), clock value `now` read by the test of the loop and
clock value `now2` read inside `send_data`, the send step emits exactly one
packet carrying the identity `FOLLOWER_ID`, the link address and the
`event_counter` to the broadcast address and sets `last_data_sent` to `now2`
(which is `now` only when the clock did not advance in between) if
`now - last_data_sent >= DATA_INTERVAL` (1000, subtraction of
`unsigned long`), whatever the counter was at the previous send; otherwise it
emits nothing and leaves `last_data_sent` unchanged. In both cases
`event_counter` and `last_pin_state` are unchanged. -/
theorem C8_send_cadence (s : Follower) (junk : List Nat) (ok : Bool) (now now2 : Nat)
    (hmac : s.mac_addr.length = 6) (hcount : s.event_counter < U32) :
    (sub32 now s.last_data_sent ≥ 1000 →
      (∃ pkt, (loop_send FOLLOWER_ID s junk ok now now2).sent
            = [([255, 255, 255, 255, 255, 255], pkt)]
          ∧ pkt.head? = some DATA_PACKET
          ∧ follower_id_str pkt = some FOLLOWER_ID
          ∧ packet_mac_addr pkt = s.mac_addr
          ∧ packet_event_count pkt = s.event_counter)
      ∧ (loop_send FOLLOWER_ID s junk ok now now2).state.last_data_sent = now2)
    ∧ (¬ sub32 now s.last_data_sent ≥ 1000 →
      (loop_send FOLLOWER_ID s junk ok now now2).sent = []
      ∧ (loop_send FOLLOWER_ID s junk ok now now2).state.last_data_sent = s.last_data_sent)
    ∧ (loop_send FOLLOWER_ID s junk ok now now2).state.event_counter = s.event_counter
    ∧ (loop_send FOLLOWER_ID s junk ok now now2).state.last_pin_state = s.last_pin_state := by
  obtain ⟨_, hh, _, hm, he⟩ := build_packet_fields FOLLOWER_ID s junk
  have hid := follower_id_str_build_packet FOLLOWER_ID s junk
  have hfid : (c_str FOLLOWER_ID).take 15 = FOLLOWER_ID := by decide
  rw [hfid] at hid
  rw [memcpy_of_length hmac] at hm
  rw [Nat.mod_eq_of_lt hcount] at he
  unfold loop_send
  by_cases h : sub32 now s.last_data_sent ≥ DATA_INTERVAL
  · rw [if_pos h]
    refine ⟨fun _ => ⟨⟨build_packet FOLLOWER_ID s junk, rfl, hh, hid, hm, he⟩, rfl⟩, ?_, rfl, rfl⟩
    intro h'
    exact absurd h h'
  · rw [if_neg h]
    refine ⟨fun h' => absurd h' h, fun _ => ⟨rfl, rfl⟩, rfl, rfl⟩

/-- Witness of C8: last send at 5000, counter 3; at 6000 one packet goes out
and the send is stamped 6002, at 5999 nothing goes out. -/
theorem C8_send_cadence_witness :
    ((∃ pkt, (loop_send FOLLOWER_ID
          { event_counter := 3, last_pin_state := true, last_data_sent := 5000,
            mac_addr := F1_mac } [] true 6000 6002).sent
            = [([255, 255, 255, 255, 255, 255], pkt)]
          ∧ pkt.head? = some DATA_PACKET
          ∧ follower_id_str pkt = some FOLLOWER_ID
          ∧ packet_mac_addr pkt = F1_mac
          ∧ packet_event_count pkt = 3)
      ∧ (loop_send FOLLOWER_ID
          { event_counter := 3, last_pin_state := true, last_data_sent := 5000,
            mac_addr := F1_mac } [] true 6000 6002).state.last_data_sent = 6002)
    ∧ ((loop_send FOLLOWER_ID
          { event_counter := 3, last_pin_state := true, last_data_sent := 5000,
            mac_addr := F1_mac } [] true 5999 5999).sent = []
      ∧ (loop_send FOLLOWER_ID
          { event_counter := 3, last_pin_state := true, last_data_sent := 5000,
            mac_addr := F1_mac } [] true 5999 5999).state.last_data_sent = 5000) :=
  ⟨(C8_send_cadence
      { event_counter := 3, last_pin_state := true, last_data_sent := 5000, mac_addr := F1_mac }
      [] true 6000 6002 (by decide) (by decide)).1 (by decide),
   (C8_send_cadence
      { event_counter := 3, last_pin_state := true, last_data_sent := 5000, mac_addr := F1_mac }
      [] true 5999 5999 (by decide) (by decide)).2.1 (by decide)⟩

/-- C8 as stated fails when the clock advances between the test of the loop
and the end of `send_data`: the test reads 6000 and passes, `send_data` reads
6002 after the transmission, and `last_data_sent` is 6002, not 6000. -/
theorem C8_counterexample :
    sub32 6000 5000 ≥ DATA_INTERVAL
    ∧ (loop_send FOLLOWER_ID
        { event_counter := 3, last_pin_state := true, last_data_sent := 5000,
          mac_addr := F1_mac } [] true 6000 6002).state.last_data_sent = 6002
    ∧ (loop_send FOLLOWER_ID
        { event_counter := 3, last_pin_state := true, last_data_sent := 5000,
          mac_addr := F1_mac } [] true 6000 6002).state.last_data_sent ≠ 6000 := by
  refine ⟨by decide, by decide, by decide⟩

/-- C10, the code at the failing input: after a packet whose identity field
is 15 letters "A" and a NUL, and `long_id_packet`, whose identity field is 16
letters "A", the registry holds two entries; they store the same identity, and
the key of the second (16 letters) is not the identity it stores (15
letters). -/
theorem C10_same_identity_twice :
    valid_data_packet long_id_packet
    ∧ run_calls Registry.empty.nodes
        [.receive F1_mac (report (List.replicate 15 65) F1_mac 1) 1000,
         .receive F1_mac long_id_packet 2000]
      = some [(List.replicate 15 65,
                { mac_addr := F1_mac, follower_id := List.replicate 15 65, event_count := 1,
                  last_seen := 1000 }),
              (List.replicate 16 65,
                { mac_addr := [0, 10, 196, 0, 0, 1], follower_id := List.replicate 15 65,
                  event_count := 5, last_seen := 2000 })] := by
  refine ⟨by decide, by decide⟩

/-! ## The summary -/

/-- What `print_followers_summary` does on every registry: it prints one row
per entry, in the order of the keys, each row showing the identity, link
address and count stored in its entry, and it leaves the registry as it
was. -/
theorem print_followers_summary_rows (reg : Registry) (now : Nat) :
    (print_followers_summary reg.nodes now).1.rows.length = reg.nodes.length
    ∧ (print_followers_summary reg.nodes now).1.rows.map SummaryRow.device_id
        = reg.nodes.map (fun pair => pair.2.follower_id)
    ∧ (reg.nodes.map Prod.fst).Pairwise (fun a b => str_lt a b = true)
    ∧ (print_followers_summary reg.nodes now).2 = reg.nodes := by
  refine ⟨?_, ?_, ?_, rfl⟩
  · simp [print_followers_summary]
  · simp [print_followers_summary, List.map_map, Function.comp_def]
  · exact List.pairwise_map.mpr reg.ascending

/-- C11, the code at the failing input: after a packet whose identity field is
15 letters "A" and a NUL, and `long_id_packet`, whose identity field is 16
letters "A", `print_followers_summary` prints two rows that show the same
identity, so the rows are not in strictly ascending order of the identity they
show; the registry is left as it was. -/
theorem C11_rows_repeat_identity :
    ∃ m, run_calls Registry.empty.nodes
        [.receive F1_mac (report (List.replicate 15 65) F1_mac 1) 1000,
         .receive F1_mac long_id_packet 2000] = some m
      ∧ (print_followers_summary m 3000).1.rows.map SummaryRow.device_id
          = [List.replicate 15 65, List.replicate 15 65]
      ∧ str_lt (List.replicate 15 65) (List.replicate 15 65) = false
      ∧ (print_followers_summary m 3000).2 = m := by
  refine ⟨_, rfl, rfl, by decide, rfl⟩

/-! ## Failure of a send -/

/-- C14. Send failure does not alter agent state: for every follower state and
clock value, the state after `send_data` (`event_counter`, `last_pin_state`,
`last_data_sent`, link address) is the same whether `esp_now_send` reported
success or failure, and in both cases the call hands exactly one buffer to the
transport: no second transmission is attempted. -/
theorem C14_send_failure_keeps_state (fid : List Nat) (s : Follower) (junk : List Nat)
    (now : Nat) :
    (send_data fid s junk false now).state = (send_data fid s junk true now).state
    ∧ (send_data fid s junk false now).state.event_counter = s.event_counter
    ∧ (send_data fid s junk false now).state.last_pin_state = s.last_pin_state
    ∧ (send_data fid s junk false now).state.mac_addr = s.mac_addr
    ∧ (send_data fid s junk false now).state.last_data_sent = now
    ∧ (send_data fid s junk false now).sent = (send_data fid s junk true now).sent
    ∧ (send_data fid s junk false now).sent.length = 1
    ∧ (send_data fid s junk false now).errors = ["Error sending data packet"]
    ∧ (send_data fid s junk true now).errors = [] := by
  refine ⟨rfl, rfl, rfl, rfl, rfl, rfl, rfl, rfl, rfl⟩

/-! ## Eviction and the wrap of the clock -/

theorem map_find_check_inactive {m : Nodes} (hm : Ascending m) {id : List Nat} {f : follower_t}
    (hf : map_find id m = some f) (now : Nat) :
    map_find id (check_inactive_followers m now)
      = if inactive now f = true then none else some f := by
  have hmem : (id, f) ∈ m := mem_of_map_find hf
  rw [check_inactive_followers_eq_filter hm now]
  by_cases hin : inactive now f = true
  · rw [if_pos hin]
    cases hfind : map_find id (m.filter (fun pair => !inactive now pair.2)) with
    | none => rfl
    | some g =>
      have hg := mem_of_map_find hfind
      rw [List.mem_filter] at hg
      have heq := ascending_key_unique hm hg.1 hmem rfl
      have hgf : g = f := congrArg Prod.snd heq
      have := hg.2
      rw [hgf] at this
      simp [hin] at this
  · rw [if_neg hin]
    have hmem' : (id, f) ∈ m.filter (fun pair => !inactive now pair.2) := by
      rw [List.mem_filter]
      exact ⟨hmem, by simpa using hin⟩
    exact map_find_of_mem (ascending_filter hm _) hmem'

theorem sub32_elapsed (last_seen d : Nat) (hd : d < U32) :
    sub32 ((last_seen + d) % U32) last_seen = d := by
  unfold sub32 U32 at *
  omega

/-- C15. Eviction is correct across clock wrap-around: the clock being a
32-bit unsigned counter, for every entry of every registry and every elapsed
time `d < 2^32` between the entry's `last_seen` and the time of the check (so
`now = (last_seen + d) mod 2^32`, which may be numerically smaller than
`last_seen`), `check_inactive_followers` removes the entry if and only if
`d > FOLLOWER_TIMEOUT` (10000), and otherwise keeps it unchanged. -/
theorem C15_eviction_across_wrap (reg : Registry) (id : List Nat) (f : follower_t) (d : Nat)
    (hf : map_find id reg.nodes = some f) (hd : d < 4294967296) :
    (map_find id (check_inactive_followers reg.nodes ((f.last_seen + d) % 4294967296)) = none
        ↔ d > 10000)
    ∧ (¬ d > 10000 →
        map_find id (check_inactive_followers reg.nodes ((f.last_seen + d) % 4294967296))
          = some f) := by
  have hsub : sub32 ((f.last_seen + d) % U32) f.last_seen = d := sub32_elapsed _ _ hd
  have hfind := map_find_check_inactive reg.ascending hf ((f.last_seen + d) % U32)
  have hin : (inactive ((f.last_seen + d) % U32) f = true) ↔ d > 10000 := by
    simp only [inactive, decide_eq_true_eq, hsub, FOLLOWER_TIMEOUT]
  change (map_find id (check_inactive_followers reg.nodes ((f.last_seen + d) % U32)) = none
        ↔ d > 10000)
    ∧ (¬ d > 10000 →
        map_find id (check_inactive_followers reg.nodes ((f.last_seen + d) % U32)) = some f)
  rw [hfind]
  by_cases h : d > 10000
  · rw [if_pos (hin.mpr h)]
    exact ⟨⟨fun _ => h, fun _ => rfl⟩, fun h' => absurd h h'⟩
  · rw [if_neg (fun hc => h (hin.mp hc))]
    exact ⟨⟨fun hc => by simp at hc, fun hc => absurd hc h⟩, fun _ => rfl⟩

/-- Witness of C15: an entry last seen 5000 ms before the clock wraps. After
10001 ms the clock reads 5001 and the entry is removed; after 10000 ms the
clock reads 5000 and the entry is kept. -/
theorem C15_eviction_across_wrap_witness :
    (map_find F1 (check_inactive_followers
        (Registry.single F1 (F1_entry 0 4294962296)).nodes 5001) = none ↔ 10001 > 10000)
    ∧ map_find F1 (check_inactive_followers
        (Registry.single F1 (F1_entry 0 4294962296)).nodes 5000)
      = some (F1_entry 0 4294962296) :=
  ⟨(C15_eviction_across_wrap (Registry.single F1 (F1_entry 0 4294962296)) F1
      (F1_entry 0 4294962296) 10001 (by decide) (by decide)).1,
   (C15_eviction_across_wrap (Registry.single F1 (F1_entry 0 4294962296)) F1
      (F1_entry 0 4294962296) 10000 (by decide) (by decide)).2 (by decide)⟩

/-! ## The sender address -/

/-- C17. The registry does not depend on the transport-reported sender: for
every registry, payload buffer and receive time, two runs of `OnDataReceived`
that differ only in the sender address argument have the same outcome and
produce equal registries; when the buffer is a valid DATA packet in which the
code reads the identity `id`, the entry stored under `id` holds the link
address carried inside the payload. -/
theorem C17_sender_address_unused (reg : Registry) (sender1 sender2 data : List Nat)
    (now : Nat) :
    OnDataReceived reg.nodes sender1 data now = OnDataReceived reg.nodes sender2 data now
    ∧ ∀ id, valid_data_packet data → follower_id_str data = some id →
        ∃ m f, OnDataReceived reg.nodes sender1 data now = some m
          ∧ map_find id m = some f ∧ f.mac_addr = packet_mac_addr data := by
  refine ⟨rfl, ?_⟩
  intro id hv hid
  rw [OnDataReceived_of_valid hv, hid]
  refine ⟨_, { mac_addr := packet_mac_addr data, follower_id := id.take 15,
                event_count := packet_event_count data, last_seen := now }, rfl, ?_, rfl⟩
  rw [map_find_assign, if_pos rfl]

/-- Witness of C17: a report of "F1" that carries the address of "F1" and is
delivered with the sender address of "F2" stores the address of "F1". -/
theorem C17_sender_address_unused_witness :
    ∃ m f, OnDataReceived Registry.empty.nodes F2_mac (report F1 F1_mac 7) 1000 = some m
      ∧ map_find F1 m = some f ∧ f.mac_addr = packet_mac_addr (report F1 F1_mac 7) :=
  (C17_sender_address_unused Registry.empty F2_mac F1_mac (report F1 F1_mac 7) 1000).2 F1
    (by decide) (by decide)

/-! ## The size of the registry -/

theorem map_find_none_of_lt {k : List Nat} {m : Nodes} (h : ∀ e ∈ m, str_lt k e.1 = true) :
    map_find k m = none := by
  induction m with
  | nil => rfl
  | cons x rest ih =>
    obtain ⟨kx, vx⟩ := x
    have hx : str_lt k kx = true := h (kx, vx) (List.mem_cons_self _ _)
    have hne : ¬ kx = k := fun e => str_lt_ne hx e.symm
    simp only [map_find]
    rw [if_neg hne]
    exact ih (fun e he => h e (List.mem_cons_of_mem _ he))

theorem length_map_assign {m : Nodes} (hm : Ascending m) (k : List Nat) (v : follower_t) :
    (map_assign k v m).length = if map_find k m = none then m.length + 1 else m.length := by
  induction m with
  | nil => simp [map_assign, map_find]
  | cons x rest ih =>
    obtain ⟨kx, vx⟩ := x
    have hx : ∀ e ∈ rest, str_lt kx e.1 = true := (List.pairwise_cons.mp hm).1
    have hrest : Ascending rest := (List.pairwise_cons.mp hm).2
    rcases str_lt_cases k kx with h1 | h2 | rfl
    · rw [map_assign_cons_lt v vx rest h1]
      have hnone : map_find k ((kx, vx) :: rest) = none :=
        map_find_none_of_lt (by
          intro e he
          rcases List.mem_cons.mp he with h | h
          · rw [h]; exact h1
          · exact str_lt_trans h1 (hx e h))
      rw [if_pos hnone]
      simp
    · rw [map_assign_cons_gt v vx rest h2]
      have hne : ¬ kx = k := str_lt_ne h2
      have hfind : map_find k ((kx, vx) :: rest) = map_find k rest := by
        simp only [map_find]
        rw [if_neg hne]
      rw [hfind, List.length_cons, ih hrest]
      by_cases hn : map_find k rest = none
      · rw [if_pos hn, if_pos hn]
        rfl
      · rw [if_neg hn, if_neg hn]
        rfl
    · rw [map_assign_cons_eq]
      have hfind : map_find k ((k, vx) :: rest) ≠ none := by
        simp [map_find]
      rw [if_neg hfind]
      rfl

theorem length_map_assign_le (k : List Nat) (v : follower_t) (m : Nodes) :
    (map_assign k v m).length ≤ m.length + 1 := by
  induction m with
  | nil => simp [map_assign]
  | cons x rest ih =>
    obtain ⟨kx, vx⟩ := x
    rcases str_lt_cases k kx with h1 | h2 | rfl
    · rw [map_assign_cons_lt v vx rest h1]
      simp
    · rw [map_assign_cons_gt v vx rest h2]
      simp only [List.length_cons]
      omega
    · rw [map_assign_cons_eq]
      simp

theorem length_OnDataReceived_le {m m' : Nodes} {sender data : List Nat} {now : Nat}
    (h : OnDataReceived m sender data now = some m') : m'.length ≤ m.length + 1 := by
  unfold OnDataReceived at h
  by_cases h0 : data.length ≤ 0
  · rw [if_pos h0] at h
    rw [← Option.some.inj h]
    omega
  · rw [if_neg h0] at h
    by_cases hc : data.getD 0 0 = DATA_PACKET ∧ data.length = sizeof_data_packet_t
    · simp only [hc, and_self, if_true] at h
      cases hid : follower_id_str data with
      | none =>
        rw [hid] at h
        exact Option.noConfusion h
      | some id =>
        rw [hid] at h
        rw [← Option.some.inj h]
        exact length_map_assign_le _ _ _
    · simp only [hc, if_false] at h
      rw [← Option.some.inj h]
      omega

theorem length_check_inactive_followers_le (m : Nodes) (now : Nat) :
    (check_inactive_followers m now).length ≤ m.length := by
  rw [check_inactive_followers, foldl_erase]
  exact List.length_filter_le _ _

theorem length_run_calls_le (calls : List LeaderCall) (m0 m : Nodes)
    (h : run_calls m0 calls = some m) : m.length ≤ m0.length + receive_calls calls := by
  induction calls generalizing m0 with
  | nil =>
    simp only [run_calls] at h
    rw [← Option.some.inj h]
    simp [receive_calls]
  | cons c rest ih =>
    simp only [run_calls] at h
    cases hc : c.run m0 with
    | none =>
      rw [hc] at h
      exact Option.noConfusion h
    | some m1 =>
      rw [hc] at h
      have h1 := ih m1 h
      cases c with
      | receive sender data now =>
        have hr : receive_calls (LeaderCall.receive sender data now :: rest)
            = receive_calls rest + 1 := by
          simp [receive_calls]
        have := @length_OnDataReceived_le m0 m1 sender data now hc
        rw [hr]
        omega
      | check now =>
        have hr : receive_calls (LeaderCall.check now :: rest) = receive_calls rest := by
          simp [receive_calls]
        simp only [LeaderCall.run] at hc
        have := length_check_inactive_followers_le m0 now
        rw [← Option.some.inj hc] at h1
        rw [hr]
        omega

/-- Frame of an upsert in terms of the key: for every registry and every valid
DATA packet in which `OnDataReceived` reads the key `X`, the lookup of every
other key gives afterwards what it gave before, and the number of entries
grows by exactly one if `X` was absent and stays the same if it was present. -/
theorem OnDataReceived_frame_of_key (reg : Registry) (sender data : List Nat) (now : Nat)
    (X : List Nat) (hv : valid_data_packet data) (hX : follower_id_str data = some X) :
    ∃ m, OnDataReceived reg.nodes sender data now = some m
      ∧ (∀ k, k ≠ X → map_find k m = map_find k reg.nodes)
      ∧ (map_find X reg.nodes = none → m.length = reg.nodes.length + 1)
      ∧ (map_find X reg.nodes ≠ none → m.length = reg.nodes.length) := by
  rw [OnDataReceived_of_valid hv, hX]
  refine ⟨_, rfl, ?_, ?_, ?_⟩
  · intro k hk
    rw [map_find_assign, if_neg hk]
  · intro hn
    rw [length_map_assign reg.ascending, if_pos hn]
  · intro hn
    rw [length_map_assign reg.ascending, if_neg hn]

/-- Frame of an upsert for a packet whose identity field holds a NUL: the key
is the identity the packet carries, so only the entry of that identity is
touched. -/
theorem OnDataReceived_frame_of_terminated (reg : Registry) (sender data : List Nat)
    (now : Nat) (hv : valid_data_packet data)
    (hz : 0 ∈ (data.drop offsetof_follower_id).take 16) :
    ∃ m, OnDataReceived reg.nodes sender data now = some m
      ∧ (∀ k, k ≠ packet_identity data → map_find k m = map_find k reg.nodes)
      ∧ (map_find (packet_identity data) reg.nodes = none → m.length = reg.nodes.length + 1)
      ∧ (map_find (packet_identity data) reg.nodes ≠ none → m.length = reg.nodes.length) :=
  OnDataReceived_frame_of_key reg sender data now (packet_identity data) hv
    (follower_id_str_of_terminated hz).1

/-- C13, the code at the failing input. `wide_id_packet` is a valid DATA packet
that carries the identity of 16 letters "A". Delivered to a registry that
already holds an entry under that identity, it adds a second entry, under the
key of 19 bytes that the code reads (the 16 letters and three bytes of the
link address), although the identity was present; delivered again with
another count, it overwrites that entry, which is stored under a key other
than the identity the packet carries. -/
theorem C13_other_key_overwritten :
    valid_data_packet (wide_id_packet 7)
    ∧ packet_identity (wide_id_packet 7) = List.replicate 16 65
    ∧ packet_identity (wide_id_packet 9) = List.replicate 16 65
    ∧ List.replicate 16 65 ++ [36, 10, 196] ≠ List.replicate 16 65
    ∧ ∃ m0 m1 m2,
        OnDataReceived Registry.empty.nodes F1_mac long_id_packet 1000 = some m0
      ∧ map_find (List.replicate 16 65) m0 ≠ none
      ∧ OnDataReceived m0 F1_mac (wide_id_packet 7) 2000 = some m1
      ∧ m1.length = m0.length + 1
      ∧ map_find (List.replicate 16 65 ++ [36, 10, 196]) m1
          = some { mac_addr := F1_mac, follower_id := List.replicate 15 65, event_count := 7,
                   last_seen := 2000 }
      ∧ OnDataReceived m1 F1_mac (wide_id_packet 9) 3000 = some m2
      ∧ map_find (List.replicate 16 65 ++ [36, 10, 196]) m2
          = some { mac_addr := F1_mac, follower_id := List.replicate 15 65, event_count := 9,
                   last_seen := 3000 } := by
  refine ⟨by decide, by decide, by decide, by decide, _, _, _, rfl, by decide, rfl, by decide,
    by decide, rfl, by decide⟩

/-- C16 (as amended). Registry size: in every registry state reachable from
the empty registry by a sequence of `OnDataReceived` and
`check_inactive_followers` calls, the number of entries is at most the number
of `OnDataReceived` calls of the sequence; `MAX_FOLLOWERS` sets no bound. -/
theorem C16_registry_size (calls : List LeaderCall) (m : Nodes)
    (h : run_calls Registry.empty.nodes calls = some m) :
    m.length ≤ receive_calls calls := by
  have := length_run_calls_le calls Registry.empty.nodes m h
  simpa [Registry.empty] using this

/-- Witness of C16: reports of "F1", "F2", "F1" with a check in between leave
at most three entries. -/
theorem C16_registry_size_witness :
    [(F1, F1_entry 1 3000), (F2, F2_entry 0 2000)].length
      ≤ receive_calls [.receive F1_mac (report F1 F1_mac 0) 1000,
          .receive F2_mac (report F2 F2_mac 0) 2000, .check 2500,
          .receive F1_mac (report F1 F1_mac 1) 3000] :=
  C16_registry_size [.receive F1_mac (report F1 F1_mac 0) 1000,
    .receive F2_mac (report F2 F2_mac 0) 2000, .check 2500,
    .receive F1_mac (report F1 F1_mac 1) 3000]
    [(F1, F1_entry 1 3000), (F2, F2_entry 0 2000)] (by decide)

/-- C16 as stated fails: the reports of 21 followers with the identities "A"
to "U" leave 21 entries in the registry, more than `MAX_FOLLOWERS`. -/
theorem C16_counterexample :
    ∃ m, run_calls Registry.empty.nodes (crowd 21) = some m
      ∧ m.length = 21 ∧ ¬ m.length ≤ MAX_FOLLOWERS := by
  refine ⟨_, rfl, by decide, by decide⟩

/-! ## Repeated reports of one follower -/

theorem run_calls_append (m : Nodes) (a b : List LeaderCall) :
    run_calls m (a ++ b) = (run_calls m a).bind (fun m' => run_calls m' b) := by
  induction a generalizing m with
  | nil => simp [run_calls]
  | cons c rest ih =>
    simp only [List.cons_append, run_calls]
    cases c.run m with
    | none => rfl
    | some m1 => simp [ih]

theorem deliveries_append (a b : List (List Nat × List Nat × Nat)) :
    deliveries (a ++ b) = deliveries a ++ deliveries b := by
  simp [deliveries]

/-- Deliveries of packets of one identity keep a registry that holds nothing
or only that identity in this shape. -/
theorem run_calls_same_identity (id : List Nat) (ds : List (List Nat × List Nat × Nat))
    (hds : ∀ d ∈ ds, valid_data_packet d.2.1 ∧ 0 ∈ (d.2.1.drop offsetof_follower_id).take 16
      ∧ packet_identity d.2.1 = id)
    (m0 : Nodes) (h0 : m0 = [] ∨ ∃ f, m0 = [(id, f)]) :
    ∃ m1, run_calls m0 (deliveries ds) = some m1 ∧ (m1 = [] ∨ ∃ f, m1 = [(id, f)]) := by
  induction ds generalizing m0 with
  | nil => exact ⟨m0, rfl, h0⟩
  | cons d rest ih =>
    obtain ⟨hv, hz, hid⟩ := hds d (List.mem_cons_self _ _)
    have hstep := OnDataReceived_of_terminated hv hz m0 d.1 d.2.2
    rw [hid] at hstep
    have hshape : ∃ f, map_assign id
        { mac_addr := packet_mac_addr d.2.1, follower_id := id,
          event_count := packet_event_count d.2.1, last_seen := d.2.2 } m0 = [(id, f)] := by
      rcases h0 with h | ⟨f, h⟩
      · rw [h]
        exact ⟨_, rfl⟩
      · rw [h, map_assign_cons_eq]
        exact ⟨_, rfl⟩
    obtain ⟨m1, hm1, hm1s⟩ := ih (fun e he => hds e (List.mem_cons_of_mem _ he)) _
      (Or.inr hshape)
    refine ⟨m1, ?_, hm1s⟩
    simp only [deliveries, List.map_cons, run_calls, LeaderCall.run]
    rw [hstep]
    exact hm1

/-- C12 (as amended). Repeated reports collapse to one entry: for every
non-empty sequence of valid DATA packets whose 16-byte identity field holds a
NUL (identity text of at most 15 bytes) and that all carry the same identity,
delivered in order to an initially empty registry, every delivery returns and
the registry afterwards contains exactly one entry, under that identity, with
that identity, the link address and event count of the last delivered packet
and `last_seen` equal to the time of the last delivery. -/
theorem C12_repeated_reports_collapse (id : List Nat)
    (earlier : List (List Nat × List Nat × Nat)) (last : List Nat × List Nat × Nat)
    (h : ∀ d ∈ earlier ++ [last], valid_data_packet d.2.1
      ∧ 0 ∈ (d.2.1.drop offsetof_follower_id).take 16 ∧ packet_identity d.2.1 = id) :
    run_calls Registry.empty.nodes (deliveries (earlier ++ [last]))
      = some [(id, { mac_addr := packet_mac_addr last.2.1, follower_id := id,
                     event_count := packet_event_count last.2.1, last_seen := last.2.2 })] := by
  obtain ⟨m1, hm1, hshape⟩ := run_calls_same_identity id earlier
    (fun d hd => h d (List.mem_append_left _ hd)) Registry.empty.nodes (Or.inl rfl)
  obtain ⟨hv, hz, hid⟩ := h last (List.mem_append_right _ (List.mem_singleton_self _))
  have hstep := OnDataReceived_of_terminated hv hz m1 last.1 last.2.2
  rw [hid] at hstep
  rw [deliveries_append, run_calls_append, hm1]
  simp only [Option.bind_eq_bind, Option.some_bind, deliveries, List.map_cons, List.map_nil,
    run_calls, LeaderCall.run]
  rw [hstep]
  rcases hshape with h1 | ⟨f, h1⟩
  · rw [h1]
    rfl
  · rw [h1, map_assign_cons_eq]
    rfl

/-- Witness of C12: "F1" reports the counts 0, 0, 1 at the times 0, 1000,
2000; the registry then holds exactly one entry, that of "F1", with count 1
and `last_seen` 2000. -/
theorem C12_repeated_reports_collapse_witness :
    run_calls Registry.empty.nodes (deliveries
        ([(F1_mac, report F1 F1_mac 0, 0), (F1_mac, report F1 F1_mac 0, 1000)]
          ++ [(F1_mac, report F1 F1_mac 1, 2000)]))
      = some [(F1, F1_entry 1 2000)] :=
  C12_repeated_reports_collapse F1
    [(F1_mac, report F1 F1_mac 0, 0), (F1_mac, report F1 F1_mac 0, 1000)]
    (F1_mac, report F1 F1_mac 1, 2000) (by decide)

/-- C12 as stated fails: `long_id_packet`, a valid DATA packet whose identity
field holds 16 letters, delivered three times to the empty registry leaves one
entry whose stored identity is the first 15 letters, not the identity the
packets carry. -/
theorem C12_counterexample :
    valid_data_packet long_id_packet
    ∧ packet_identity long_id_packet = List.replicate 16 65
    ∧ run_calls Registry.empty.nodes (deliveries
        ([(F1_mac, long_id_packet, 0), (F1_mac, long_id_packet, 1000)]
          ++ [(F1_mac, long_id_packet, 2000)]))
      = some [(List.replicate 16 65,
          { mac_addr := [0, 10, 196, 0, 0, 1], follower_id := List.replicate 15 65,
            event_count := 5, last_seen := 2000 })]
    ∧ List.replicate 15 65 ≠ packet_identity long_id_packet := by
  refine ⟨by decide, by decide, by decide, by decide⟩

end TaulabMesh
